import Mathlib

/-!
# RiverEdge deployment panel: remediation registry and install job manager

A shallow embedding of `riveredge-panel/panel/main.go`.

* Go strings are modelled by Lean strings (sequences of Unicode scalar values);
  the few functions of package `strings` the handlers call are defined on the
  character list.  All prefixes, cut sets and separators the source passes are
  ASCII, so on well-formed UTF-8 text the byte-wise Go functions and the
  character-wise ones below coincide.
* `runtime.GOOS` and the contents of `/etc/os-release` are the fields of `Host`.
* A handler `func(w http.ResponseWriter, r *http.Request)` is a function from the
  request (and the shared state it touches) to the response it writes.
* `map[string]*installJob` is a finite map from component names to addresses of
  a heap of `installJob` records; `&installJob{...}` allocates a fresh address.
-/

namespace RiverEdge

/-! ## Package `strings` -/

namespace strings

/-- Go `strings.HasPrefix(s, pre)`. -/
def HasPrefix (s pre : String) : Bool :=
  pre.data.isPrefixOf s.data

/-- Go `strings.TrimPrefix(s, pre)`: `s` without the leading `pre`, or `s` itself. -/
def TrimPrefix (s pre : String) : String :=
  if HasPrefix s pre then String.mk (s.data.drop pre.data.length) else s

/-- Drop from both ends of a character list every character satisfying `p`. -/
def trimChars (p : Char → Bool) (cs : List Char) : List Char :=
  ((cs.dropWhile p).reverse.dropWhile p).reverse

/-- Go `strings.Trim(s, cutset)`: strip leading and trailing characters of `cutset`. -/
def Trim (s cutset : String) : String :=
  String.mk (trimChars (fun c => cutset.data.contains c) s.data)

/-- Go `unicode.IsSpace`: the code points with the White_Space property. -/
def isSpace (c : Char) : Bool :=
  let n := c.toNat
  (0x09 ≤ n && n ≤ 0x0D) || n == 0x20 || n == 0x85 || n == 0xA0 || n == 0x1680 ||
  (0x2000 ≤ n && n ≤ 0x200A) || n == 0x2028 || n == 0x2029 || n == 0x202F ||
  n == 0x205F || n == 0x3000

/-- Go `strings.TrimSpace(s)`. -/
def TrimSpace (s : String) : String :=
  String.mk (trimChars isSpace s.data)

/-- Cut a character list at every occurrence of `sep`. -/
def splitChars (sep : Char) : List Char → List (List Char)
  | [] => [[]]
  | c :: cs =>
    if c = sep then [] :: splitChars sep cs
    else
      match splitChars sep cs with
      | [] => [[c]]
      | l :: ls => (c :: l) :: ls

/-- Go `strings.Split(s, sep)` for a one-character separator, the only kind the
source passes (a newline in `detectDistro`, a dot in `versionGE`). -/
def Split (s : String) (sep : Char) : List String :=
  (splitChars sep s.data).map String.mk

end strings

/-! ## Host and platform detection -/

/-- What the process can observe of the machine it runs on. -/
structure Host where
  /-- The value of `runtime.GOOS`. -/
  GOOS : String
  /-- The contents of `/etc/os-release`; `none` when `os.ReadFile` returns an error. -/
  osRelease : Option String

/-- One iteration of the line loop of `detectDistro`. -/
def detectDistroLine (acc : String × String) (line : String) : String × String :=
  let line := strings.TrimSpace line
  let distro :=
    if strings.HasPrefix line "ID=" then strings.Trim (strings.TrimPrefix line "ID=") "\""
    else acc.1
  let ver :=
    if strings.HasPrefix line "VERSION_ID=" then
      strings.Trim (strings.TrimPrefix line "VERSION_ID=") "\""
    else acc.2
  (distro, ver)

/-- Go `detectDistro`: the `ID` and `VERSION_ID` fields of `/etc/os-release`. -/
def detectDistro (h : Host) : String × String :=
  if h.GOOS ≠ "linux" then ("", "")
  else
    match h.osRelease with
    | none => ("", "")
    | some data => (strings.Split data '\n').foldl detectDistroLine ("", "")

/-! ## Remediation registry -/

/-- Go map index `m[k]` on a `map[string]string`: the zero value when the key is absent. -/
def index (m : List (String × String)) (k : String) : String :=
  (m.lookup k).getD ""

/-- Go `installScripts`. -/
def installScripts : List (String × List (String × String)) :=
  [ ("node",
      [ ("windows", "winget install OpenJS.NodeJS.LTS --accept-package-agreements"),
        ("linux", "sudo apt update && sudo apt install -y nodejs npm || sudo dnf install -y nodejs npm"),
        ("ubuntu22", "sudo apt update && sudo apt install -y ca-certificates curl gnupg && sudo mkdir -p /etc/apt/keyrings && curl -fsSL https://deb.nodesource.com/gpgkey/nodesource-repo.gpg.key | sudo gpg --dearmor -o /etc/apt/keyrings/nodesource.gpg && echo 'deb [signed-by=/etc/apt/keyrings/nodesource.gpg] https://deb.nodesource.com/node_22.x nodistro main' | sudo tee /etc/apt/sources.list.d/nodesource.list && sudo apt update && sudo apt install -y nodejs") ]),
    ("python",
      [ ("windows", "winget install Python.Python.3.12 --accept-package-agreements"),
        ("linux", "sudo apt install -y python3.12 python3.12-venv python3-pip || sudo dnf install -y python3.12"),
        ("ubuntu22", "sudo apt update && sudo apt install -y software-properties-common && sudo add-apt-repository -y ppa:deadsnakes/ppa && sudo apt update && sudo apt install -y python3.12 python3.12-venv && curl -sS https://bootstrap.pypa.io/get-pip.py | python3.12") ]),
    ("uv",
      [ ("windows", "powershell -c \"irm https://astral.sh/uv/install.ps1 | iex\""),
        ("linux", "curl -LsSf https://astral.sh/uv/install.sh | sh"),
        ("ubuntu22", "curl -LsSf https://astral.sh/uv/install.sh | sh") ]),
    ("postgresql",
      [ ("windows", "winget install PostgreSQL.PostgreSQL --accept-package-agreements"),
        ("linux", "sudo apt install -y postgresql postgresql-contrib || sudo dnf install -y postgresql-server postgresql-contrib"),
        ("ubuntu22", "sudo apt update && sudo apt install -y postgresql-common && sudo /usr/share/postgresql-common/pgdg/apt.postgresql.org.sh && sudo apt install -y postgresql-15 postgresql-contrib-15") ]),
    ("redis",
      [ ("windows", "winget install Redis.Redis --accept-package-agreements"),
        ("linux", "sudo apt install -y redis-server || sudo dnf install -y redis"),
        ("ubuntu22", "sudo apt update && sudo apt install -y redis-server") ]),
    ("inngest",
      [ ("windows", "从 bin/inngest/ 目录或 https://github.com/inngest/inngest-cli/releases 下载 inngest.exe 置于项目 bin/inngest/"),
        ("linux", "从 https://github.com/inngest/inngest-cli/releases 下载对应架构的 inngest 置于项目 bin/inngest/"),
        ("ubuntu22", "从 https://github.com/inngest/inngest-cli/releases 下载对应架构的 inngest 置于项目 bin/inngest/") ]),
    ("bash",
      [ ("windows", "winget install Git.Git --accept-package-agreements（安装 Git for Windows 含 Git Bash），或启用 WSL"),
        ("linux", "通常已预装 bash"),
        ("ubuntu22", "通常已预装 bash") ]),
    ("caddy",
      [ ("windows", "从 https://github.com/caddyserver/caddy/releases 下载 caddy_*_windows_amd64.zip 解压到 PATH"),
        ("linux", "sudo apt install -y debian-keyring debian-archive-keyring apt-transport-https curl && curl -1sLf 'https://dl.cloudsmith.io/public/caddy/stable/gpg.key' | sudo gpg --dearmor -o /usr/share/keyrings/caddy-stable-archive-keyring.gpg && curl -1sLf 'https://dl.cloudsmith.io/public/caddy/stable/debian.deb.txt' | sudo tee /etc/apt/sources.list.d/caddy-stable.list && sudo apt update && sudo apt install caddy"),
        ("ubuntu22", "sudo apt update && sudo apt install -y debian-keyring debian-archive-keyring apt-transport-https curl && curl -1sLf 'https://dl.cloudsmith.io/public/caddy/stable/gpg.key' | sudo gpg --dearmor -o /usr/share/keyrings/caddy-stable-archive-keyring.gpg && curl -1sLf 'https://dl.cloudsmith.io/public/caddy/stable/debian.deb.txt' | sudo tee /etc/apt/sources.list.d/caddy-stable.list && sudo apt update && sudo apt install -y caddy") ]) ]

/-- Go `installableComponents[comp]`: the components that may be installed unattended. -/
def installableComponents (comp : String) : Bool :=
  ["node", "python", "uv", "postgresql", "redis", "caddy"].contains comp

/-! ## Requests and responses -/

/-- The part of `*http.Request` the handlers read. -/
structure Request where
  Method : String
  Path : String

/-- A value of a JSON object written by `writeJSON`. -/
inductive JSON where
  | bool (b : Bool)
  | str (s : String)
  deriving DecidableEq, Repr

/-- What a handler writes to its `http.ResponseWriter`. -/
inductive Response where
  /-- `w.WriteHeader(code)` with an empty body. -/
  | WriteHeader (code : Nat)
  /-- `http.Error(w, msg, code)`. -/
  | Error (msg : String) (code : Nat)
  /-- `writeJSON(w, obj)`, the fields in the order of the map literal. -/
  | writeJSON (obj : List (String × JSON))
  deriving DecidableEq, Repr

/-- The test `distro == "ubuntu" && (HasPrefix(ver, "22") || HasPrefix(ver, "24"))`
both handlers apply to the result of `detectDistro`. -/
def ubuntuLTS (dv : String × String) : Bool :=
  dv.1 == "ubuntu" && (strings.HasPrefix dv.2 "22" || strings.HasPrefix dv.2 "24")

/-- The tier selection of `apiInstallScript` (from `plat := "linux"` to the end of the
Ubuntu block): the platform and the command it reports for a registry entry. -/
def apiInstallScript_select (h : Host) (scripts : List (String × String)) :
    String × String :=
  let plat := if h.GOOS = "windows" then "windows" else "linux"
  let cmd := index scripts plat
  if plat = "linux" then
    if ubuntuLTS (detectDistro h) then
      match scripts.lookup "ubuntu22" with
      | some ubuntuCmd => if ubuntuCmd ≠ "" then ("ubuntu22", ubuntuCmd) else (plat, cmd)
      | none => (plat, cmd)
    else (plat, cmd)
  else (plat, cmd)

/-- Go `apiInstallScript`, over a registry table `reg` (`installScripts` in the source). -/
def apiInstallScript (reg : List (String × List (String × String))) (h : Host)
    (r : Request) : Response :=
  if r.Method ≠ "GET" then .WriteHeader 405
  else
    let comp := strings.TrimPrefix r.Path "/api/install-script/"
    match reg.lookup comp with
    | none => .Error "unknown component" 404
    | some scripts =>
      let pc := apiInstallScript_select h scripts
      .writeJSON [("platform", .str pc.1), ("component", .str comp), ("command", .str pc.2)]

/-- The tier selection of `apiInstall` (from `plat := "linux"` to the fallback
`cmd = scripts["linux"]`): the platform and the command it will run. -/
def apiInstall_select (h : Host) (scripts : List (String × String)) : String × String :=
  let plat :=
    if ubuntuLTS (detectDistro h) then
      match scripts.lookup "ubuntu22" with
      | some ubuntuCmd => if ubuntuCmd ≠ "" then "ubuntu22" else "linux"
      | none => "linux"
    else "linux"
  let cmd := index scripts plat
  if cmd = "" then (plat, index scripts "linux") else (plat, cmd)

/-! ## Install job manager -/

/-- Go `installJob`; `Start` is the `time.Time` of the accepted request as a clock reading. -/
structure installJob where
  Running : Bool
  Done : Bool
  Success : Bool
  Output : String
  Start : Nat
  deriving DecidableEq, Repr

/-- The shared state guarded by `installJobsMu`, together with the goroutines it has
spawned.  `installJobs` is the Go map `map[string]*installJob`: a pointer is an address
of `heap`, and `next` is the first address not yet allocated.  `goroutines` lists, for
every `go func()` launched by `apiInstall` whose `runCmd.Run()` has not returned yet, the
`comp` and `cmd` its closure captured. -/
structure Store where
  heap : Nat → installJob
  next : Nat
  installJobs : String → Option Nat
  goroutines : List (String × String)

/-- The state at process start: `make(map[string]*installJob)` and no goroutine. -/
def Store.empty : Store :=
  { heap := fun _ => ⟨false, false, false, "", 0⟩
    next := 0
    installJobs := fun _ => none
    goroutines := [] }

/-- The job entry of a component: the record the pointer `installJobs[comp]` refers to. -/
def Store.job (s : Store) (comp : String) : Option installJob :=
  (s.installJobs comp).map s.heap

/-- The test `j, ok := installJobs[comp]; ok && j.Running`. -/
def Store.running (s : Store) (comp : String) : Bool :=
  match s.installJobs comp with
  | some p => (s.heap p).Running
  | none => false

/-- Number of launched goroutines for `comp` whose subprocess has not completed. -/
def Store.launched (s : Store) (comp : String) : Nat :=
  s.goroutines.countP (fun g => g.1 == comp)

/-- The component named by the path of an install request. -/
def installComp (r : Request) : String :=
  strings.Trim (strings.TrimPrefix r.Path "/api/install/") "/"

/-- The answer of `apiInstall` to an accepted request. -/
def installStarted : Response :=
  .writeJSON [("started", .bool true), ("message", .str "安装已启动，请稍候")]

/-- The answer of `apiInstall` for a component whose job is running. -/
def installBusy : Response :=
  .writeJSON [("started", .bool false), ("message", .str "该组件正在安装中")]

/-- The accepted branch of `apiInstall`: the assignment
`installJobs[comp] = &installJob{Running: true, Start: time.Now()}` on a freshly allocated
record, followed by the `go` statement whose closure captures `comp` and `cmd`. -/
def Store.launch (s : Store) (comp cmd : String) (now : Nat) : Store :=
  { heap := Function.update s.heap s.next ⟨true, false, false, "", now⟩
    next := s.next + 1
    installJobs := Function.update s.installJobs comp (some s.next)
    goroutines := s.goroutines ++ [(comp, cmd)] }

/-- Go `apiInstall` over a registry table `reg` (`installScripts` in the source), up to
and including the `go` statement: the response written and the state left behind.  The
section between `installJobsMu.Lock()` and `Unlock()` is atomic, and the `go` statement
that follows the unlock is taken together with it; `now` is the value of `time.Now()`. -/
def apiInstall (reg : List (String × List (String × String))) (h : Host) (now : Nat)
    (r : Request) (s : Store) : Response × Store :=
  if r.Method ≠ "POST" then (.WriteHeader 405, s)
  else if h.GOOS ≠ "linux" then (.Error "一键安装仅支持 Linux (Ubuntu 22)" 400, s)
  else
    let comp := installComp r
    if installableComponents comp = false then
      (.Error "该组件不支持一键安装，请手动执行安装命令" 400, s)
    else
      match reg.lookup comp with
      | none => (.Error "unknown component" 404, s)
      | some scripts =>
        let cmd := (apiInstall_select h scripts).2
        if s.running comp = true then (installBusy, s)
        else
          (installStarted, s.launch comp cmd now)

/-- The locked tail of the goroutine of `apiInstall`, run when `runCmd.Run()` has
returned `err` (`none` for `nil`) and `out` holds the combined output. -/
def installDone (comp : String) (err : Option String) (out : String) (s : Store) : Store :=
  match s.installJobs comp with
  | none => s
  | some p =>
    { s with
      heap := Function.update s.heap p
        { s.heap p with Running := false, Done := true, Success := err.isNone, Output := out } }

/-- Completion of the `i`-th pending goroutine: its subprocess returns `err` and `out`,
the goroutine records the outcome and ends. -/
def goroutineExit (i : Nat) (err : Option String) (out : String) (s : Store) : Store :=
  match s.goroutines.get? i with
  | none => s
  | some g => installDone g.1 err out { s with goroutines := s.goroutines.eraseIdx i }

/-- The error `exec.Cmd.Run` returns for a subprocess that was started and exited with
status `code`: `nil` for status 0 and an `*exec.ExitError` otherwise. -/
def exitError (code : Nat) : Option String :=
  if code = 0 then none else some ("exit status " ++ toString code)

/-- The component named by the path of a status request. -/
def statusComp (r : Request) : String :=
  strings.Trim (strings.TrimPrefix r.Path "/api/install-status/") "/"

/-- Go `apiInstallStatus` with its memory accesses made explicit.  The pointer is
fetched from the map in state `s0`, between `RLock` and `RUnlock`; the four fields are
read through that pointer after `RUnlock`, in the states `s1`, `s2`, `s3`, `s4` the
store has at the moments of the four reads. -/
def apiInstallStatusAt (r : Request) (s0 s1 s2 s3 s4 : Store) : Response :=
  if r.Method ≠ "GET" then .WriteHeader 405
  else
    match s0.installJobs (statusComp r) with
    | none => .writeJSON [("running", .bool false), ("done", .bool false)]
    | some j =>
      .writeJSON [("running", .bool (s1.heap j).Running), ("done", .bool (s2.heap j).Done),
        ("success", .bool (s3.heap j).Success), ("output", .str (s4.heap j).Output)]

/-- Go `apiInstallStatus` when no other goroutine runs during the call: the response
and the state left behind. -/
def apiInstallStatus (r : Request) (s : Store) : Response × Store :=
  (apiInstallStatusAt r s s s s s, s)

/-- One atomic step of the job manager: a start request, or the completion of a
launched subprocess. -/
inductive Step : Store → Store → Prop where
  | start (h : Host) (now : Nat) (r : Request) (s : Store) :
      Step s (apiInstall installScripts h now r s).2
  | finish (i : Nat) (err : Option String) (out : String) (s : Store)
      (hi : i < s.goroutines.length) : Step s (goroutineExit i err out s)

/-- The states the job manager can be in, starting from the empty job table. -/
inductive Reachable : Store → Prop where
  | init : Reachable Store.empty
  | step {s t : Store} (hs : Reachable s) (hst : Step s t) : Reachable t

/-- Pointers stored in the map are allocated, and no two components share one. -/
def Store.WF (s : Store) : Prop :=
  (∀ c p, s.installJobs c = some p → p < s.next) ∧
  (∀ c d p, s.installJobs c = some p → s.installJobs d = some p → c = d)

/-- The invariant of the job manager: the store is well formed, a component has a
pending goroutine exactly when its job is running (and then only one), and every job
record is either running with nothing recorded yet, or done. -/
def Store.Inv (s : Store) : Prop :=
  s.WF ∧ (∀ c, s.launched c = if s.running c = true then 1 else 0) ∧
  ∀ c j, s.job c = some j →
    j.Running = !j.Done ∧ (j.Running = true → j.Success = false ∧ j.Output = "")

/-! ## Concrete hosts and stores used as test inputs -/

/-- An Ubuntu 22.04 host. -/
def ubuntu2204 : Host :=
  ⟨"linux", some "NAME=\"Ubuntu\"\nVERSION_ID=\"22.04\"\nID=ubuntu\nID_LIKE=debian\n"⟩

/-- An Ubuntu 20.04 host. -/
def ubuntu2004 : Host :=
  ⟨"linux", some "NAME=\"Ubuntu\"\nVERSION_ID=\"20.04\"\nID=ubuntu\nID_LIKE=debian\n"⟩

/-- A `POST /api/install/redis` request. -/
def postRedis : Request := ⟨"POST", "/api/install/redis"⟩

/-- A `GET /api/install-status/redis` request. -/
def statusRedis : Request := ⟨"GET", "/api/install-status/redis"⟩

/-- The store after the first accepted `POST /api/install/redis` at time 7. -/
def busyRedis : Store :=
  (apiInstall installScripts ubuntu2204 7 postRedis Store.empty).2

/-- The store after the redis installation of `busyRedis` failed with exit status 1. -/
def failedRedis : Store :=
  goroutineExit 0 (exitError 1) "E: Unable to locate package" busyRedis

/-- An Ubuntu host whose os-release file gives the version 220.04. -/
def ubuntu22004 : Host :=
  ⟨"linux", some "ID=ubuntu\nVERSION_ID=\"220.04\"\n"⟩

/-- A registry with one component, `tool`, that has no specialised Ubuntu command. -/
def toolRegistry : List (String × List (String × String)) :=
  [("tool", [("windows", "winget install tool"), ("linux", "make install"), ("ubuntu22", "")])]

/-- The major release number of a distro version, the number written by the digits
before its first dot (22 for `22.04`); `none` when those characters are not a non-empty
run of decimal digits.  The source has no such function: it is the reading of "numeric
prefix" that the tier rule is compared with. -/
def majorRelease (ver : String) : Option Nat :=
  let ds := ver.data.takeWhile (fun c => c != '.')
  if ds ≠ [] ∧ ds.all Char.isDigit = true then
    some (ds.foldl (fun n c => 10 * n + (c.toNat - '0'.toNat)) 0)
  else none

/-! ## Version comparator -/

namespace fmt

/-- The white space `Sscanf` skips in front of a `%d` verb (`ss.SkipSpace` with
`nlIsSpace` unset): every space character is skipped, except that a newline is the error
"unexpected newline", here `none`. -/
def SkipSpace : List Char → Option (List Char)
  | [] => some []
  | c :: cs =>
    if c = '\n' then none
    else if strings.isSpace c then SkipSpace cs
    else some (c :: cs)

/-- The number written by a run of decimal digits. -/
def decimal (ds : List Char) : Nat :=
  ds.foldl (fun n c => 10 * n + (c.toNat - '0'.toNat)) 0

/-- Go `fmt.Sscanf(s, "%d", &a)` on a zero-valued 64-bit `int` variable `a`: the value of
`a` after the call.  White space is skipped, an optional sign is accepted, then a
non-empty run of decimal digits is read and converted by `strconv.ParseInt`; whatever
follows the digits is left unread.  On any error (unexpected newline, no digit, value
outside the `int64` range) the variable keeps its zero value. -/
def Sscanf (s : String) : Int :=
  match SkipSpace s.data with
  | none => 0
  | some cs =>
    let neg := cs.head? == some '-'
    let body :=
      match cs with
      | c :: r => if c = '+' ∨ c = '-' then r else cs
      | [] => []
    let ds := body.takeWhile Char.isDigit
    if ds = [] then 0
    else if neg then (if decimal ds > 2 ^ 63 then 0 else - (decimal ds : Int))
    else (if decimal ds ≥ 2 ^ 63 then 0 else (decimal ds : Int))

end fmt

/-- The variable `a` (or `b`) of `versionGE` in iteration `i`: zero unless the version
has an `i`-th field, which is then scanned with `%d`. -/
def versionField (va : List String) (i : Nat) : Int :=
  match va.get? i with
  | some f => fmt.Sscanf f
  | none => 0

/-- The loop of `versionGE` over the remaining indices. -/
def versionGE_loop (va vb : List String) : List Nat → Bool
  | [] => true
  | i :: rest =>
    if versionField va i > versionField vb i then true
    else if versionField va i < versionField vb i then false
    else versionGE_loop va vb rest

/-- Go `versionGE`. -/
def versionGE (v min : String) : Bool :=
  versionGE_loop (strings.Split v '.') (strings.Split min '.') [0, 1, 2]

/-- A version component that begins with a decimal number: after optional white space
and an optional sign comes a decimal digit. -/
def startsWithNumber (f : String) : Bool :=
  match f.data.dropWhile strings.isSpace with
  | [] => false
  | c :: r =>
    if c = '+' ∨ c = '-' then
      (match r with
        | [] => false
        | d :: _ => d.isDigit)
    else c.isDigit

/-! ## Reading an os-release file, line by line -/

/-- The lines of an os-release file, each with surrounding white space trimmed. -/
def osReleaseLines (data : String) : List String :=
  (strings.Split data '\n').map strings.TrimSpace

/-- The value of a line `KEY=value`: what follows the key, without surrounding double
quotes. -/
def fieldValue (key line : String) : String :=
  strings.Trim (strings.TrimPrefix line key) "\""

/-- An os-release file in which both fields occur twice. -/
def twoDistros : String :=
  "ID=ubuntu\nVERSION_ID=\"22.04\"\nID=debian\nVERSION_ID=\"12\"\n"

/-! ## Package `regexp`, for the version patterns of the probes -/

namespace regexp

/-- One element of a pattern: a character class matched once (`x`), at most once (`x?`,
preferring once) or one or more times (`x+`, greedy). -/
inductive Atom where
  | one (p : Char → Bool)
  | opt (p : Char → Bool)
  | plus (p : Char → Bool)

/-- The class an element of a pattern draws its characters from. -/
def Atom.cls : Atom → Char → Bool
  | .one p => p
  | .opt p => p
  | .plus p => p

/-- A compiled pattern of the shape `pre(group)post` with one capture group, which is
the shape of every pattern the probes pass to `regexp.MustCompile`. -/
structure Regexp where
  pre : List Atom
  group : List Atom
  post : List Atom

/-- The tail of `x+` after its first character: take as many further characters of the
class as possible, and give one back at a time while the rest of the pattern, `k`, fails.
`acc` is the text consumed so far. -/
def greedy {R : Type} (p : Char → Bool) (k : List Char → List Char → Option R) :
    List Char → List Char → Option R
  | acc, [] => k acc []
  | acc, c :: cs =>
    if p c = true then
      match greedy p k (acc ++ [c]) cs with
      | some r => some r
      | none => k acc (c :: cs)
    else k acc (c :: cs)

/-- Backtracking match of a sequence of elements at the head of the input, in the
leftmost-first order of Go's `regexp`; `k` continues with the text consumed and the
input left. -/
def matchAtoms {R : Type} :
    List Atom → (List Char → List Char → Option R) → List Char → List Char → Option R
  | [], k, acc, s => k acc s
  | .one p :: rest, k, acc, s =>
    match s with
    | c :: cs => if p c = true then matchAtoms rest k (acc ++ [c]) cs else none
    | [] => none
  | .opt p :: rest, k, acc, s =>
    match s with
    | c :: cs =>
      if p c = true then
        match matchAtoms rest k (acc ++ [c]) cs with
        | some r => some r
        | none => matchAtoms rest k acc (c :: cs)
      else matchAtoms rest k acc (c :: cs)
    | [] => matchAtoms rest k acc []
  | .plus p :: rest, k, acc, s =>
    match s with
    | c :: cs => if p c = true then greedy p (matchAtoms rest k) (acc ++ [c]) cs else none
    | [] => none

/-- A match of the pattern that starts at the head of the input: the whole text matched
and the text of the capture group. -/
def matchHere (re : Regexp) (s : List Char) : Option (List Char × List Char) :=
  matchAtoms re.pre (fun t1 s1 =>
    matchAtoms re.group (fun g s2 =>
      matchAtoms re.post (fun t3 _ => some (t1 ++ g ++ t3, g)) [] s2) [] s1) [] s

/-- The leftmost match of the pattern in the input. -/
def find (re : Regexp) : List Char → Option (List Char × List Char)
  | [] => matchHere re []
  | c :: cs =>
    match matchHere re (c :: cs) with
    | some r => some r
    | none => find re cs

/-- Go `(*Regexp).FindStringSubmatch(s)`: the leftmost match and its capture group, or
the nil slice when there is no match. -/
def FindStringSubmatch (re : Regexp) (s : String) : List String :=
  match find re s.data with
  | some (whole, g) => [String.mk whole, String.mk g]
  | none => []

/-- The class `\d`. -/
def digit (c : Char) : Bool := c.isDigit

/-- The class `\s` of Go's `regexp`: tab, newline, form feed, carriage return, space. -/
def space (c : Char) : Bool :=
  c == '\t' || c == '\n' || c == '\x0c' || c == '\r' || c == ' '

/-- The sub-pattern `\d+\.\d+\.\d+`. -/
def threeNumbers : List Atom :=
  [.plus digit, .one (· == '.'), .plus digit, .one (· == '.'), .plus digit]

/-- The pattern `v?(\d+\.\d+\.\d+)` of `checkNode`. -/
def nodePattern : Regexp := ⟨[.opt (· == 'v')], threeNumbers, []⟩

/-- The pattern `(\d+\.\d+\.\d+)` of `checkPython`, `checkRedis` and `checkInngest`. -/
def semverPattern : Regexp := ⟨[], threeNumbers, []⟩

/-- The pattern `uv\s+(\d+\.\d+\.\d+)` of `checkUV`. -/
def uvPattern : Regexp := ⟨[.one (· == 'u'), .one (· == 'v'), .plus space], threeNumbers, []⟩

/-- The pattern `(\d+\.\d+)` of `checkPostgres`. -/
def majorMinorPattern : Regexp := ⟨[], [.plus digit, .one (· == '.'), .plus digit], []⟩

/-- The pattern `v(\d+\.\d+\.\d+)` of `checkCaddy`. -/
def caddyPattern : Regexp := ⟨[.one (· == 'v')], threeNumbers, []⟩

/-- The language of a sequence of pattern elements: the texts it can match. -/
def AtomsMatch : List Atom → List Char → Prop
  | [], t => t = []
  | .one p :: rest, t => ∃ c u, t = c :: u ∧ p c = true ∧ AtomsMatch rest u
  | .opt p :: rest, t => AtomsMatch rest t ∨ ∃ c u, t = c :: u ∧ p c = true ∧ AtomsMatch rest u
  | .plus p :: rest, t =>
    ∃ cs u, t = cs ++ u ∧ cs ≠ [] ∧ (∀ c ∈ cs, p c = true) ∧ AtomsMatch rest u

/-- The text `whole` matches the pattern with `g` as the text of its capture group. -/
def Matches (re : Regexp) (whole g : List Char) : Prop :=
  ∃ t1 t3, whole = t1 ++ g ++ t3 ∧ AtomsMatch re.pre t1 ∧ AtomsMatch re.group g ∧
    AtomsMatch re.post t3

end regexp

/-- Go `extractVersion`, on a compiled pattern. -/
def extractVersion (s : String) (re : regexp.Regexp) : String :=
  match regexp.FindStringSubmatch re s with
  | _ :: g :: _ => g
  | _ => s

/-- The version patterns the probes use. -/
def versionPatterns : List regexp.Regexp :=
  [regexp.nodePattern, regexp.semverPattern, regexp.uvPattern, regexp.majorMinorPattern,
    regexp.caddyPattern]

/-! ## Capability probes -/

/-- Go `checkItem`. -/
structure checkItem where
  Installed : Bool
  Version : String
  Path : String
  MeetsRequirement : Bool
  deriving DecidableEq, Repr

/-- What a probe observes of the machine: the OS family, the environment variables, the
files that exist, the project directory, and the outcome of running a command. -/
structure Machine where
  /-- The value of `runtime.GOOS`. -/
  GOOS : String
  /-- Go `os.Getenv`. -/
  Getenv : String → String
  /-- Whether `os.Stat(p)` returns a nil error. -/
  Stat : String → Bool
  /-- Go `filepath.Join` on the elements given. -/
  Join : List String → String
  /-- The package variable `projectDir`. -/
  projectDir : String
  /-- The outcome of `exec.Command(name, arg...).CombinedOutput()`: whether the error is
  nil, and the output.  The first argument tells whether the command runs with `PATH`
  replaced by `getEnhancedPath()` (so in `runCmd` on Windows) or in the inherited
  environment. -/
  CombinedOutput : Bool → String → List String → Bool × String

/-- Go `runCmd`. -/
def runCmd (m : Machine) (name : String) (arg : List String) : Bool × String :=
  ((m.CombinedOutput (decide (m.GOOS = "windows")) name arg).1,
    strings.TrimSpace (m.CombinedOutput (decide (m.GOOS = "windows")) name arg).2)

/-- Go `runCmdEx`. -/
def runCmdEx (m : Machine) (name : String) (arg : List String) : Bool × String :=
  ((m.CombinedOutput false name arg).1, strings.TrimSpace (m.CombinedOutput false name arg).2)

/-- Go `checkNode`. -/
def checkNode (m : Machine) : checkItem :=
  if (runCmd m "node" ["-v"]).1 = false then
    { Installed := false, Version := "", Path := "", MeetsRequirement := false }
  else
    { Installed := true
      Version := extractVersion (runCmd m "node" ["-v"]).2 regexp.nodePattern
      Path := ""
      MeetsRequirement :=
        versionGE (extractVersion (runCmd m "node" ["-v"]).2 regexp.nodePattern) "22.0.0" }

/-- The loop of `checkPython` over the interpreter names left to try. -/
def checkPython_loop (m : Machine) : List String → checkItem
  | [] => { Installed := false, Version := "", Path := "", MeetsRequirement := false }
  | py :: rest =>
    if m.GOOS ≠ "windows" ∧ py ≠ "python3" then checkPython_loop m rest
    else if (runCmd m py ["--version"]).1 = true then
      { Installed := true
        Version := extractVersion (runCmd m py ["--version"]).2 regexp.semverPattern
        Path := ""
        MeetsRequirement :=
          versionGE (extractVersion (runCmd m py ["--version"]).2 regexp.semverPattern)
            "3.12.0" }
    else checkPython_loop m rest

/-- Go `checkPython`. -/
def checkPython (m : Machine) : checkItem :=
  checkPython_loop m ["python", "py", "python3"]

/-- The candidate loop shared by `checkUV` and `checkInngest`: the first existing path
whose `--version` run succeeds gives the version, read with the pattern `re`. -/
def checkPaths (m : Machine) (re : regexp.Regexp) : List String → checkItem
  | [] => { Installed := false, Version := "", Path := "", MeetsRequirement := false }
  | p :: rest =>
    if m.Stat p = false then checkPaths m re rest
    else if (runCmdEx m p ["--version"]).1 = true then
      { Installed := true
        Version := extractVersion (runCmdEx m p ["--version"]).2 re
        Path := ""
        MeetsRequirement := false }
    else checkPaths m re rest

/-- The `candidates` of `checkUV` on Windows. -/
def uvCandidates (m : Machine) : List String :=
  [ m.Join [m.Getenv "USERPROFILE", ".local", "bin", "uv.exe"],
    m.Join [m.Getenv "USERPROFILE", "AppData", "Local", "Programs", "Python", "Python311",
      "Scripts", "uv.exe"],
    m.Join [m.Getenv "USERPROFILE", "AppData", "Local", "Programs", "Python", "Python312",
      "Scripts", "uv.exe"],
    m.Join [m.Getenv "USERPROFILE", "AppData", "Local", "Programs", "Python", "Python313",
      "Scripts", "uv.exe"] ]

/-- Go `checkUV`. -/
def checkUV (m : Machine) : checkItem :=
  if (runCmd m "uv" ["--version"]).1 = true then
    { Installed := true
      Version := extractVersion (runCmd m "uv" ["--version"]).2 regexp.uvPattern
      Path := ""
      MeetsRequirement := false }
  else if m.GOOS = "windows" then checkPaths m regexp.uvPattern (uvCandidates m)
  else { Installed := false, Version := "", Path := "", MeetsRequirement := false }

/-- Go `checkNpm`. -/
def checkNpm (m : Machine) : checkItem :=
  if (runCmd m "npm" ["-v"]).1 = false then
    { Installed := false, Version := "", Path := "", MeetsRequirement := false }
  else
    { Installed := true
      Version := strings.TrimSpace (runCmd m "npm" ["-v"]).2
      Path := ""
      MeetsRequirement := versionGE (strings.TrimSpace (runCmd m "npm" ["-v"]).2) "10.0.0" }

/-- The loop of `checkPostgres` over the command lines left to try. -/
def checkPostgres_loop (m : Machine) : List (List String) → checkItem
  | [] => { Installed := false, Version := "", Path := "", MeetsRequirement := false }
  | cmd :: rest =>
    if (runCmd m (cmd.headD "") cmd.tail).1 = true then
      { Installed := true
        Version := extractVersion (runCmd m (cmd.headD "") cmd.tail).2
          regexp.majorMinorPattern
        Path := ""
        MeetsRequirement :=
          versionGE (extractVersion (runCmd m (cmd.headD "") cmd.tail).2
            regexp.majorMinorPattern) "15.0" }
    else checkPostgres_loop m rest

/-- Go `checkPostgres`. -/
def checkPostgres (m : Machine) : checkItem :=
  checkPostgres_loop m [["psql", "--version"], ["pg_config", "--version"]]

/-- Go `checkRedis`. -/
def checkRedis (m : Machine) : checkItem :=
  if (runCmd m "redis-cli" ["--version"]).1 = false then
    { Installed := false, Version := "", Path := "", MeetsRequirement := false }
  else
    { Installed := true
      Version := extractVersion (runCmd m "redis-cli" ["--version"]).2 regexp.semverPattern
      Path := ""
      MeetsRequirement :=
        versionGE (extractVersion (runCmd m "redis-cli" ["--version"]).2
          regexp.semverPattern) "6.0" }

/-- The loop of `checkBash` over the Program Files directories left to try. -/
def checkBash_loop (m : Machine) : List String → checkItem
  | [] => { Installed := false, Version := "", Path := "", MeetsRequirement := false }
  | dir :: rest =>
    if dir = "" then checkBash_loop m rest
    else if m.Stat (m.Join [dir, "Git", "bin", "bash.exe"]) = true then
      if (runCmdEx m (m.Join [dir, "Git", "bin", "bash.exe"]) ["-c", "echo 1"]).1 = true then
        { Installed := true, Version := "Git Bash", Path := "", MeetsRequirement := false }
      else checkBash_loop m rest
    else checkBash_loop m rest

/-- Go `checkBash`. -/
def checkBash (m : Machine) : checkItem :=
  if (runCmd m "bash" ["-c", "echo 1"]).1 = true then
    { Installed := true, Version := "available", Path := "", MeetsRequirement := false }
  else if m.GOOS = "windows" then
    if (runCmd m "wsl" ["--version"]).1 = true then
      { Installed := true, Version := "WSL", Path := "", MeetsRequirement := false }
    else checkBash_loop m [m.Getenv "ProgramFiles", m.Getenv "ProgramFiles(x86)"]
  else { Installed := false, Version := "", Path := "", MeetsRequirement := false }

/-- Go `checkCaddy`. -/
def checkCaddy (m : Machine) : checkItem :=
  if (runCmd m "caddy" ["version"]).1 = true then
    { Installed := true
      Version :=
        if extractVersion (runCmd m "caddy" ["version"]).2 regexp.caddyPattern = "" then
          strings.TrimSpace (runCmd m "caddy" ["version"]).2
        else extractVersion (runCmd m "caddy" ["version"]).2 regexp.caddyPattern
      Path := ""
      MeetsRequirement := false }
  else { Installed := false, Version := "", Path := "", MeetsRequirement := false }

/-- The `candidates` of `checkInngest`. -/
def inngestCandidates (m : Machine) : List String :=
  [ m.Join [m.projectDir, "bin", "inngest", "inngest.exe"],
    m.Join [m.projectDir, "bin", "inngest", "inngest"],
    m.Join [m.projectDir, "bin", "inngest", "inngest-windows-amd64.exe"],
    m.Join [m.projectDir, "bin", "inngest.exe"],
    m.Join [m.projectDir, "bin", "inngest"] ]

/-- Go `checkInngest`. -/
def checkInngest (m : Machine) : checkItem :=
  if (runCmd m "inngest" ["--version"]).1 = true then
    { Installed := true
      Version := extractVersion (runCmd m "inngest" ["--version"]).2 regexp.semverPattern
      Path := ""
      MeetsRequirement := false }
  else checkPaths m regexp.semverPattern (inngestCandidates m)

/-! ## The runs each probe attempts -/

/-- The run `checkNode` attempts. -/
def checkNode_runs (m : Machine) : List (Bool × String) :=
  [runCmd m "node" ["-v"]]

/-- The runs `checkPython` attempts: `python3` everywhere, `python` and `py` before it on
Windows only. -/
def checkPython_runs (m : Machine) : List (Bool × String) :=
  (["python", "py", "python3"].filter
    (fun py => decide (m.GOOS = "windows" ∨ py = "python3"))).map
    (fun py => runCmd m py ["--version"])

/-- The runs `checkUV` attempts: `uv` on the search path, then on Windows each
candidate path that exists. -/
def checkUV_runs (m : Machine) : List (Bool × String) :=
  runCmd m "uv" ["--version"] ::
    (if m.GOOS = "windows" then
      ((uvCandidates m).filter m.Stat).map (fun p => runCmdEx m p ["--version"])
    else [])

/-- The run `checkNpm` attempts. -/
def checkNpm_runs (m : Machine) : List (Bool × String) :=
  [runCmd m "npm" ["-v"]]

/-- The runs `checkPostgres` attempts. -/
def checkPostgres_runs (m : Machine) : List (Bool × String) :=
  [runCmd m "psql" ["--version"], runCmd m "pg_config" ["--version"]]

/-- The run `checkRedis` attempts. -/
def checkRedis_runs (m : Machine) : List (Bool × String) :=
  [runCmd m "redis-cli" ["--version"]]

/-- The runs `checkBash` attempts: `bash`, then on Windows `wsl` and the Git Bash of each
non-empty Program Files directory in which it exists. -/
def checkBash_runs (m : Machine) : List (Bool × String) :=
  runCmd m "bash" ["-c", "echo 1"] ::
    (if m.GOOS = "windows" then
      runCmd m "wsl" ["--version"] ::
        (([m.Getenv "ProgramFiles", m.Getenv "ProgramFiles(x86)"].filter
          (fun dir => decide (dir ≠ "") && m.Stat (m.Join [dir, "Git", "bin", "bash.exe"]))).map
          (fun dir => runCmdEx m (m.Join [dir, "Git", "bin", "bash.exe"]) ["-c", "echo 1"]))
    else [])

/-- The run `checkCaddy` attempts. -/
def checkCaddy_runs (m : Machine) : List (Bool × String) :=
  [runCmd m "caddy" ["version"]]

/-- The runs `checkInngest` attempts: `inngest` on the search path, then each candidate
path that exists. -/
def checkInngest_runs (m : Machine) : List (Bool × String) :=
  runCmd m "inngest" ["--version"] ::
    ((inngestCandidates m).filter m.Stat).map (fun p => runCmdEx m p ["--version"])

/-- The nine probes of `apiCheck`, each with the runs it attempts. -/
def probes : List ((Machine → checkItem) × (Machine → List (Bool × String))) :=
  [ (checkNode, checkNode_runs), (checkPython, checkPython_runs), (checkUV, checkUV_runs),
    (checkNpm, checkNpm_runs), (checkPostgres, checkPostgres_runs),
    (checkRedis, checkRedis_runs), (checkBash, checkBash_runs),
    (checkInngest, checkInngest_runs), (checkCaddy, checkCaddy_runs) ]

/-- The two ways a probe can end, given the runs it attempts: with the item
`checkItem{Installed: false}` after all of them failed, or installed on the strength of
a run that exited cleanly, whose trimmed output, if not empty, yields a version that is
not empty. -/
def ProbeOutcome (item : checkItem) (runs : List (Bool × String)) : Prop :=
  (item = { Installed := false, Version := "", Path := "", MeetsRequirement := false } ∧
    ∀ r ∈ runs, r.1 = false) ∨
  (item.Installed = true ∧ ∃ r ∈ runs, r.1 = true ∧ (r.2 ≠ "" → item.Version ≠ ""))

/-- A Linux machine on which every command fails. -/
def bareLinux : Machine :=
  { GOOS := "linux"
    Getenv := fun _ => ""
    Stat := fun _ => false
    Join := fun l => "/".intercalate l
    projectDir := "/opt/riveredge"
    CombinedOutput := fun _ _ _ => (false, "exec: not found") }

/-- A Linux machine on which `node -v` exits cleanly and prints `v22.11.0`. -/
def nodeLinux : Machine :=
  { bareLinux with
    CombinedOutput := fun _ name _ =>
      if name = "node" then (true, "v22.11.0\n") else (false, "exec: not found") }

/-- A Linux machine on which `node -v` exits cleanly and prints only a newline. -/
def silentNode : Machine :=
  { bareLinux with
    CombinedOutput := fun _ name _ =>
      if name = "node" then (true, "\n") else (false, "exec: not found") }

/-! ## Patterns whose matches are determined by the text -/

namespace regexp

/-- The class of the first character of a text matched by a sequence of elements that is
followed by a character of class `stop`. -/
def first : List Atom → (Char → Bool) → Char → Bool
  | [], stop => stop
  | .one q :: _, _ => q
  | .plus q :: _, _ => q
  | .opt q :: rest, stop => fun c => q c || first rest stop c

/-- Every repeated or optional element of the sequence is followed, in the sequence or
by the class `stop` after it, by a character outside its own class: where such an
element stops is then determined by the text. -/
def Separated : List Atom → (Char → Bool) → Prop
  | [], _ => True
  | .one _ :: rest, stop => Separated rest stop
  | .opt p :: rest, stop => (∀ c, p c = true → first rest stop c = false) ∧ Separated rest stop
  | .plus p :: rest, stop => (∀ c, p c = true → first rest stop c = false) ∧ Separated rest stop

end regexp

/-- The text `g` is the capture group of the leftmost match of the pattern in `s`: a
match with capture group `g` starts at the first position of `s` where any match starts
and, the repetitions being greedy, every match that starts at that position is a prefix
of it and has a capture group that is a prefix of `g`. -/
def regexp.LeftmostGroup (re : regexp.Regexp) (s g : List Char) : Prop :=
  ∃ a whole b, s = a ++ whole ++ b ∧ regexp.Matches re whole g ∧
    (∀ a1 w1 g1 b1, s = a1 ++ w1 ++ b1 → regexp.Matches re w1 g1 → a.length ≤ a1.length) ∧
    (∀ w1 g1 b1, s = a ++ w1 ++ b1 → regexp.Matches re w1 g1 → w1 <+: whole ∧ g1 <+: g)

/-! ## Lemmas on the handlers -/

theorem installable_iff (c : String) :
    installableComponents c = true ↔
      c = "node" ∨ c = "python" ∨ c = "uv" ∨ c = "postgresql" ∨ c = "redis" ∨ c = "caddy" := by
  simp [installableComponents]

theorem installable_lookup (c : String) (hc : installableComponents c = true) :
    ∃ scripts, installScripts.lookup c = some scripts := by
  rw [installable_iff] at hc
  rcases hc with rfl | rfl | rfl | rfl | rfl | rfl <;> exact ⟨_, rfl⟩

theorem running_iff_job (s : Store) (c : String) :
    s.running c = false ↔ ∀ j, s.job c = some j → j.Running = false := by
  unfold Store.running Store.job
  cases s.installJobs c <;> simp

theorem apiInstall_reject (reg : List (String × List (String × String))) (h : Host)
    (now : Nat) (r : Request) (s : Store)
    (hrej : r.Method ≠ "POST" ∨ h.GOOS ≠ "linux" ∨ installableComponents (installComp r) = false ∨
      reg.lookup (installComp r) = none ∨ s.running (installComp r) = true) :
    (apiInstall reg h now r s).1 ≠ installStarted ∧ (apiInstall reg h now r s).2 = s := by
  by_cases h1 : r.Method = "POST"
  swap
  · simp [apiInstall, h1, installStarted]
  by_cases h2 : h.GOOS = "linux"
  swap
  · simp [apiInstall, h1, h2, installStarted]
  by_cases h3 : installableComponents (installComp r) = true
  swap
  · simp [apiInstall, h1, h2, h3, installStarted]
  cases hl : reg.lookup (installComp r) with
  | none => simp [apiInstall, h1, h2, h3, hl, installStarted]
  | some scripts =>
    by_cases h4 : s.running (installComp r) = true
    · simp [apiInstall, h1, h2, h3, hl, h4, installStarted, installBusy]
    · simp_all

theorem apiInstall_accept (reg : List (String × List (String × String))) (h : Host)
    (now : Nat) (r : Request) (s : Store) (scripts : List (String × String))
    (hm : r.Method = "POST") (hos : h.GOOS = "linux")
    (hc : installableComponents (installComp r) = true)
    (hl : reg.lookup (installComp r) = some scripts)
    (hr : s.running (installComp r) = false) :
    apiInstall reg h now r s =
      (installStarted, s.launch (installComp r) (apiInstall_select h scripts).2 now) := by
  unfold apiInstall
  simp [hm, hos, hc, hl, hr]

/-! ## Lemmas on the job store -/

theorem running_eq_job (s : Store) (c : String) :
    s.running c = match s.job c with
      | some j => j.Running
      | none => false := by
  unfold Store.running Store.job
  cases s.installJobs c <;> rfl

theorem WF_empty : Store.empty.WF := by
  constructor <;> intro c <;> simp [Store.empty]

theorem job_launch_same (s : Store) (c cmd : String) (now : Nat) :
    (s.launch c cmd now).job c = some ⟨true, false, false, "", now⟩ := by
  simp [Store.launch, Store.job]

theorem job_launch_other (s : Store) (hwf : s.WF) (c cmd : String) (now : Nat) (d : String)
    (hd : d ≠ c) : (s.launch c cmd now).job d = s.job d := by
  simp only [Store.launch, Store.job, Function.update_noteq hd]
  cases hp : s.installJobs d with
  | none => rfl
  | some p =>
    have hlt := hwf.1 d p hp
    simp [Function.update_noteq (Nat.ne_of_lt hlt)]

theorem WF_launch (s : Store) (hwf : s.WF) (c cmd : String) (now : Nat) :
    (s.launch c cmd now).WF := by
  constructor
  · intro d p hp
    simp only [Store.launch] at hp ⊢
    by_cases hd : d = c
    · subst hd
      simp at hp
      omega
    · rw [Function.update_noteq hd] at hp
      have := hwf.1 d p hp
      omega
  · intro d e p hd he
    simp only [Store.launch] at hd he
    by_cases h1 : d = c <;> by_cases h2 : e = c
    · rw [h1, h2]
    · subst h1
      rw [Function.update_noteq h2] at he
      simp at hd
      have := hwf.1 e p he
      omega
    · subst h2
      rw [Function.update_noteq h1] at hd
      simp at he
      have := hwf.1 d p hd
      omega
    · rw [Function.update_noteq h1] at hd
      rw [Function.update_noteq h2] at he
      exact hwf.2 d e p hd he

theorem launched_launch (s : Store) (c cmd : String) (now : Nat) (d : String) :
    (s.launch c cmd now).launched d = s.launched d + if c = d then 1 else 0 := by
  simp only [Store.launch, Store.launched, List.countP_append, List.countP_cons, List.countP_nil]
  by_cases h : c = d <;> simp [h]

theorem job_installDone_same (s : Store) (c : String) (err : Option String) (out : String)
    (j : installJob) (hj : s.job c = some j) :
    (installDone c err out s).job c = some ⟨false, true, err.isNone, out, j.Start⟩ := by
  unfold Store.job at hj
  cases hp : s.installJobs c with
  | none => simp [hp] at hj
  | some p =>
    simp only [hp, Option.map_some', Option.some.injEq] at hj
    simp [installDone, Store.job, hp, hj.symm]

theorem job_installDone_other (s : Store) (hwf : s.WF) (c : String) (err : Option String)
    (out : String) (d : String) (hd : d ≠ c) :
    (installDone c err out s).job d = s.job d := by
  unfold installDone
  cases hp : s.installJobs c with
  | none => rfl
  | some p =>
    simp only [Store.job]
    cases hq : s.installJobs d with
    | none => rfl
    | some q =>
      have hne : q ≠ p := fun h => hd (hwf.2 d c p (h ▸ hq) hp)
      simp [Function.update_noteq hne]

theorem WF_installDone (s : Store) (hwf : s.WF) (c : String) (err : Option String)
    (out : String) : (installDone c err out s).WF := by
  unfold installDone
  cases hp : s.installJobs c with
  | none => exact hwf
  | some p => exact hwf

theorem goroutines_installDone (s : Store) (c : String) (err : Option String) (out : String) :
    (installDone c err out s).goroutines = s.goroutines := by
  unfold installDone
  cases hp : s.installJobs c <;> rfl

theorem countP_eraseIdx_add (l : List (String × String)) (i : Nat) (g : String × String)
    (hg : l.get? i = some g) (d : String) :
    (l.eraseIdx i).countP (fun x => x.1 == d) + (if g.1 = d then 1 else 0) =
      l.countP (fun x => x.1 == d) := by
  rw [List.get?_eq_getElem?, List.getElem?_eq_some_iff] at hg
  obtain ⟨hi, rfl⟩ := hg
  conv_rhs => rw [← List.take_append_drop i l, List.drop_eq_getElem_cons hi]
  rw [List.eraseIdx_eq_take_drop_succ]
  simp only [List.countP_append, List.countP_cons]
  by_cases h : l[i].1 = d
  · simp [h]
    omega
  · simp [h]

theorem running_launch_same (s : Store) (c cmd : String) (now : Nat) :
    (s.launch c cmd now).running c = true := by
  rw [running_eq_job, job_launch_same]

theorem running_launch_other (s : Store) (hwf : s.WF) (c cmd : String) (now : Nat)
    (d : String) (hd : d ≠ c) : (s.launch c cmd now).running d = s.running d := by
  rw [running_eq_job, job_launch_other s hwf c cmd now d hd, ← running_eq_job]

theorem running_installDone_same (s : Store) (c : String) (err : Option String)
    (out : String) : (installDone c err out s).running c = false := by
  unfold installDone
  cases hp : s.installJobs c with
  | none => simp [Store.running, hp]
  | some p => simp [Store.running, hp]

theorem running_installDone_other (s : Store) (hwf : s.WF) (c : String)
    (err : Option String) (out : String) (d : String) (hd : d ≠ c) :
    (installDone c err out s).running d = s.running d := by
  rw [running_eq_job, job_installDone_other s hwf c err out d hd, ← running_eq_job]

theorem Inv_empty : Store.empty.Inv := by
  refine ⟨WF_empty, ?_, ?_⟩
  · intro c
    simp [Store.empty, Store.launched, Store.running]
  · intro c j hj
    simp [Store.empty, Store.job] at hj

theorem Inv_launch (s : Store) (hs : s.Inv) (c cmd : String) (now : Nat)
    (hr : s.running c = false) : (s.launch c cmd now).Inv := by
  obtain ⟨hwf, hcount, hjob⟩ := hs
  refine ⟨WF_launch s hwf c cmd now, ?_, ?_⟩
  · intro d
    rw [launched_launch, hcount d]
    by_cases hd : d = c
    · subst hd
      rw [running_launch_same, hr]
      simp
    · have hcd : ¬ c = d := fun h => hd h.symm
      rw [running_launch_other s hwf c cmd now d hd, if_neg hcd]
      rfl
  · intro d j hj
    by_cases hd : d = c
    · subst hd
      rw [job_launch_same] at hj
      cases hj
      simp
    · rw [job_launch_other s hwf c cmd now d hd] at hj
      exact hjob d j hj

theorem Inv_goroutineExit (s : Store) (hs : s.Inv) (i : Nat) (err : Option String)
    (out : String) : (goroutineExit i err out s).Inv := by
  obtain ⟨hwf, hcount, hjob⟩ := hs
  unfold goroutineExit
  cases hg : s.goroutines.get? i with
  | none => exact ⟨hwf, hcount, hjob⟩
  | some g =>
    simp only
    have hcnt := countP_eraseIdx_add s.goroutines i g hg
    have hwf1 : Store.WF { s with goroutines := s.goroutines.eraseIdx i } := hwf
    refine ⟨WF_installDone _ hwf1 g.1 err out, ?_, ?_⟩
    · intro d
      simp only [Store.launched, goroutines_installDone]
      have h1 := hcnt d
      have h2 := hcount d
      simp only [Store.launched] at h2
      by_cases hd : d = g.1
      · subst hd
        rw [running_installDone_same]
        rw [if_pos rfl] at h1
        by_cases hrun : s.running g.1 = true
        · rw [if_pos hrun] at h2
          simp only [Bool.false_eq_true, if_false]
          omega
        · rw [if_neg hrun] at h2
          omega
      · have hgd : ¬ g.1 = d := fun h => hd h.symm
        rw [running_installDone_other _ hwf1 g.1 err out d hd]
        rw [if_neg hgd] at h1
        have h3 : Store.running { s with goroutines := s.goroutines.eraseIdx i } d =
            s.running d := rfl
        rw [h3, ← h2]
        omega
    · intro d j hj
      by_cases hd : d = g.1
      · subst hd
        cases hj0 : Store.job { s with goroutines := s.goroutines.eraseIdx i } g.1 with
        | none =>
          have hsame : (installDone g.1 err out
              { s with goroutines := s.goroutines.eraseIdx i }).job g.1 = none := by
            unfold Store.job at hj0 ⊢
            unfold installDone
            cases hp : s.installJobs g.1 with
            | none => simp [hp]
            | some p => simp [hp] at hj0
          rw [hsame] at hj
          cases hj
        | some j0 =>
          rw [job_installDone_same _ g.1 err out j0 hj0] at hj
          cases hj
          simp
      · rw [job_installDone_other _ hwf1 g.1 err out d hd] at hj
        exact hjob d j hj

theorem Inv_apiInstall (reg : List (String × List (String × String))) (h : Host) (now : Nat)
    (r : Request) (s : Store) (hs : s.Inv) : (apiInstall reg h now r s).2.Inv := by
  by_cases hacc : r.Method = "POST" ∧ h.GOOS = "linux" ∧
      installableComponents (installComp r) = true ∧
      (∃ scripts, reg.lookup (installComp r) = some scripts) ∧ s.running (installComp r) = false
  · obtain ⟨hm, hos, hc, ⟨scripts, hl⟩, hr⟩ := hacc
    rw [apiInstall_accept reg h now r s scripts hm hos hc hl hr]
    exact Inv_launch s hs _ _ now hr
  · have hrej : r.Method ≠ "POST" ∨ h.GOOS ≠ "linux" ∨
        installableComponents (installComp r) = false ∨
        reg.lookup (installComp r) = none ∨ s.running (installComp r) = true := by
      by_contra hcon
      simp only [not_or, ne_eq, not_not, Bool.not_eq_false, Bool.not_eq_true] at hcon
      obtain ⟨h1, h2, h3, h4, h5⟩ := hcon
      exact hacc ⟨h1, h2, h3, Option.ne_none_iff_exists'.mp h4, h5⟩
    rw [(apiInstall_reject reg h now r s hrej).2]
    exact hs

theorem Inv_of_reachable (s : Store) (hs : Reachable s) : s.Inv := by
  induction hs with
  | init => exact Inv_empty
  | step _ hst ih =>
    cases hst with
    | start h now r => exact Inv_apiInstall installScripts h now r _ ih
    | finish i err out _ hi => exact Inv_goroutineExit _ ih i err out


/-! ## Claims on the install job manager -/

theorem reachable_busyRedis : Reachable busyRedis :=
  Reachable.step Reachable.init (Step.start ubuntu2204 7 postRedis Store.empty)

theorem reachable_failedRedis : Reachable failedRedis :=
  Reachable.step reachable_busyRedis
    (Step.finish 0 (exitError 1) "E: Unable to locate package" busyRedis (by decide))


/-- C1: a `POST` to `apiInstall` is answered `started=true` if and only if the OS family
is Linux, the requested component is one of node, python, uv, postgresql, redis, caddy,
and the component's job entry is absent or not Running; requests for inngest and bash
are never answered `started=true`. -/
theorem apiInstall_started_iff (h : Host) (now : Nat) (path : String) (s : Store) :
    ((apiInstall installScripts h now ⟨"POST", path⟩ s).1 = installStarted ↔
      h.GOOS = "linux" ∧
      installComp ⟨"POST", path⟩ ∈ ["node", "python", "uv", "postgresql", "redis", "caddy"] ∧
      ∀ j, s.job (installComp ⟨"POST", path⟩) = some j → j.Running = false) ∧
    (installComp ⟨"POST", path⟩ = "inngest" ∨ installComp ⟨"POST", path⟩ = "bash" →
      (apiInstall installScripts h now ⟨"POST", path⟩ s).1 ≠ installStarted) := by
  have hmem : installComp ⟨"POST", path⟩ ∈
      ["node", "python", "uv", "postgresql", "redis", "caddy"] ↔
      installableComponents (installComp ⟨"POST", path⟩) = true := by
    simp [installableComponents]
  constructor
  · rw [hmem, ← running_iff_job]
    constructor
    · intro hst
      by_contra hcon
      have hrej : (⟨"POST", path⟩ : Request).Method ≠ "POST" ∨ h.GOOS ≠ "linux" ∨
          installableComponents (installComp ⟨"POST", path⟩) = false ∨
          installScripts.lookup (installComp ⟨"POST", path⟩) = none ∨
          s.running (installComp ⟨"POST", path⟩) = true := by
        by_contra hno
        simp only [not_or, ne_eq, not_not, Bool.not_eq_false, Bool.not_eq_true] at hno
        exact hcon ⟨hno.2.1, hno.2.2.1, hno.2.2.2.2⟩
      exact (apiInstall_reject installScripts h now _ s hrej).1 hst
    · rintro ⟨hos, hc, hr⟩
      obtain ⟨scripts, hl⟩ := installable_lookup _ hc
      rw [apiInstall_accept installScripts h now _ s scripts rfl hos hc hl hr]
  · intro hor
    refine (apiInstall_reject installScripts h now _ s (Or.inr (Or.inr (Or.inl ?_)))).1
    rcases hor with hc | hc <;> rw [hc] <;> rfl

/-- C2: a call of `apiInstall` that is not answered `started=true` (in particular one on
a family other than Linux, for a component off the allow-list, or for a component whose
job is Running) returns the store it was given: the job map, every job record and the
list of launched goroutines are exactly as before. -/
theorem apiInstall_rejected_frame (reg : List (String × List (String × String)))
    (h : Host) (now : Nat) (r : Request) (s : Store)
    (hrej : (apiInstall reg h now r s).1 ≠ installStarted ∨ h.GOOS ≠ "linux" ∨
      installableComponents (installComp r) = false ∨ s.running (installComp r) = true) :
    (apiInstall reg h now r s).2 = s := by
  by_cases hacc : r.Method = "POST" ∧ h.GOOS = "linux" ∧
      installableComponents (installComp r) = true ∧
      (∃ scripts, reg.lookup (installComp r) = some scripts) ∧ s.running (installComp r) = false
  · obtain ⟨hm, hos, hc, ⟨scripts, hl⟩, hr⟩ := hacc
    rcases hrej with h1 | h1 | h1 | h1
    · rw [apiInstall_accept reg h now r s scripts hm hos hc hl hr] at h1
      exact absurd rfl h1
    · exact absurd hos h1
    · rw [hc] at h1
      cases h1
    · rw [hr] at h1
      cases h1
  · have hrej2 : r.Method ≠ "POST" ∨ h.GOOS ≠ "linux" ∨
        installableComponents (installComp r) = false ∨
        reg.lookup (installComp r) = none ∨ s.running (installComp r) = true := by
      by_contra hcon
      simp only [not_or, ne_eq, not_not, Bool.not_eq_false, Bool.not_eq_true] at hcon
      obtain ⟨h1, h2, h3, h4, h5⟩ := hcon
      exact hacc ⟨h1, h2, h3, Option.ne_none_iff_exists'.mp h4, h5⟩
    exact (apiInstall_reject reg h now r s hrej2).2

/-- Witness of C2: a second request for redis while its job is Running changes nothing. -/
theorem apiInstall_rejected_frame_witness :
    busyRedis.running (installComp postRedis) = true ∧
    (apiInstall installScripts ubuntu2204 9 postRedis busyRedis).2 = busyRedis :=
  ⟨by decide, apiInstall_rejected_frame installScripts ubuntu2204 9 postRedis busyRedis
    (Or.inr (Or.inr (Or.inr (by decide))))⟩

/-- C3, counterexample: with a redis installation running (a reachable state), two
further start requests for redis with no completion in between are both answered
`started=false`, so it is not the case that exactly one of them is answered
`started=true`. -/
theorem start_twice_both_rejected :
    Reachable busyRedis ∧
    (apiInstall installScripts ubuntu2204 8 postRedis busyRedis).1 = installBusy ∧
    (apiInstall installScripts ubuntu2204 9 postRedis
      (apiInstall installScripts ubuntu2204 8 postRedis busyRedis).2).1 = installBusy ∧
    installBusy ≠ installStarted :=
  ⟨Reachable.step Reachable.init (Step.start ubuntu2204 7 postRedis Store.empty),
    by decide, by decide, by decide⟩

/-- C3, amended: in every state reachable from the empty job table by start requests and
subprocess completions, each component has at most one launched-but-not-completed
subprocess, and it has one exactly when its job entry is Running; consequently of two
start requests for the same component with no completion in between at most one is
answered `started=true`, and when the request is a `POST` on Linux for an allow-listed
component whose job is not Running beforehand, exactly the first one is answered
`started=true` and exactly one subprocess is launched. -/
theorem single_flight (s : Store) (hs : Reachable s) :
    (∀ c, s.launched c ≤ 1 ∧
      (s.launched c = 1 ↔ ∃ j, s.job c = some j ∧ j.Running = true)) ∧
    ∀ (h : Host) (r : Request) (t1 t2 : Nat),
      ¬ ((apiInstall installScripts h t1 r s).1 = installStarted ∧
          (apiInstall installScripts h t2 r
            (apiInstall installScripts h t1 r s).2).1 = installStarted) ∧
      (r.Method = "POST" → h.GOOS = "linux" →
        installableComponents (installComp r) = true → s.running (installComp r) = false →
        (apiInstall installScripts h t1 r s).1 = installStarted ∧
        (apiInstall installScripts h t2 r
          (apiInstall installScripts h t1 r s).2).1 = installBusy ∧
        (∃ cmd, (apiInstall installScripts h t2 r
          (apiInstall installScripts h t1 r s).2).2.goroutines =
            s.goroutines ++ [(installComp r, cmd)]) ∧
        (apiInstall installScripts h t2 r
          (apiInstall installScripts h t1 r s).2).2.launched (installComp r) = 1) := by
  have hinv := Inv_of_reachable s hs
  refine ⟨?_, ?_⟩
  · intro c
    have hc := hinv.2.1 c
    have hrj : s.running c = true ↔ ∃ j, s.job c = some j ∧ j.Running = true := by
      rw [running_eq_job]
      cases s.job c <;> simp
    rw [← hrj]
    by_cases hr : s.running c = true
    · rw [if_pos hr] at hc
      simp [hc, hr]
    · rw [if_neg hr] at hc
      simp [hc, hr]
  · intro h r t1 t2
    have key : ∀ scripts, r.Method = "POST" → h.GOOS = "linux" →
        installableComponents (installComp r) = true →
        installScripts.lookup (installComp r) = some scripts →
        s.running (installComp r) = false →
        (apiInstall installScripts h t2 r (apiInstall installScripts h t1 r s).2) =
          (installBusy, s.launch (installComp r) (apiInstall_select h scripts).2 t1) := by
      intro scripts hm hos hc hl hr
      rw [apiInstall_accept installScripts h t1 r s scripts hm hos hc hl hr]
      simp [apiInstall, hm, hos, hc, hl, running_launch_same]
    constructor
    · rintro ⟨h1, h2⟩
      by_cases hacc : r.Method = "POST" ∧ h.GOOS = "linux" ∧
          installableComponents (installComp r) = true ∧
          (∃ scripts, installScripts.lookup (installComp r) = some scripts) ∧
          s.running (installComp r) = false
      · obtain ⟨hm, hos, hc, ⟨scripts, hl⟩, hr⟩ := hacc
        rw [key scripts hm hos hc hl hr] at h2
        have hne : installBusy ≠ installStarted := by decide
        exact hne h2
      · have hrej : r.Method ≠ "POST" ∨ h.GOOS ≠ "linux" ∨
            installableComponents (installComp r) = false ∨
            installScripts.lookup (installComp r) = none ∨
            s.running (installComp r) = true := by
          by_contra hcon
          simp only [not_or, ne_eq, not_not, Bool.not_eq_false, Bool.not_eq_true] at hcon
          obtain ⟨a1, a2, a3, a4, a5⟩ := hcon
          exact hacc ⟨a1, a2, a3, Option.ne_none_iff_exists'.mp a4, a5⟩
        exact (apiInstall_reject installScripts h t1 r s hrej).1 h1
    · intro hm hos hc hr
      obtain ⟨scripts, hl⟩ := installable_lookup _ hc
      rw [key scripts hm hos hc hl hr,
        apiInstall_accept installScripts h t1 r s scripts hm hos hc hl hr]
      refine ⟨rfl, rfl, ⟨_, rfl⟩, ?_⟩
      have hc0 := hinv.2.1 (installComp r)
      rw [hr] at hc0
      simp only [launched_launch, hc0]
      simp

/-- Witness of C3: the empty job table is reachable, so the single-flight property holds
for two redis start requests issued against it. -/
theorem single_flight_witness :
    Reachable Store.empty ∧
    (apiInstall installScripts ubuntu2204 7 postRedis Store.empty).1 = installStarted ∧
    (apiInstall installScripts ubuntu2204 8 postRedis
      (apiInstall installScripts ubuntu2204 7 postRedis Store.empty).2).1 = installBusy :=
  ⟨Reachable.init,
    ((single_flight Store.empty Reachable.init).2 ubuntu2204 postRedis 7 8).2
      (by decide) (by decide) (by decide) (by decide) |>.1,
    ((single_flight Store.empty Reachable.init).2 ubuntu2204 postRedis 7 8).2
      (by decide) (by decide) (by decide) (by decide) |>.2.1⟩

/-- C4: whenever `apiInstall` answers `started=true` for component C (which by C1 it does
in every job table where C is absent or not Running, whatever terminal snapshot C may
hold), the call replaces C's entry with a fresh record Running=true, Done=false,
Success=false, Output empty, started now; a status query for C then reports exactly
that record, and the entry of every other component is unchanged. -/
theorem apiInstall_accepted_entry (reg : List (String × List (String × String)))
    (h : Host) (now : Nat) (r : Request) (s : Store) (hwf : s.WF)
    (hacc : (apiInstall reg h now r s).1 = installStarted) :
    (apiInstall reg h now r s).2.job (installComp r) = some ⟨true, false, false, "", now⟩ ∧
    (∀ q : Request, q.Method = "GET" → statusComp q = installComp r →
      (apiInstallStatus q (apiInstall reg h now r s).2).1 =
        .writeJSON [("running", .bool true), ("done", .bool false),
          ("success", .bool false), ("output", .str "")]) ∧
    ∀ c, c ≠ installComp r → (apiInstall reg h now r s).2.job c = s.job c := by
  by_cases hok : r.Method = "POST" ∧ h.GOOS = "linux" ∧
      installableComponents (installComp r) = true ∧
      (∃ scripts, reg.lookup (installComp r) = some scripts) ∧ s.running (installComp r) = false
  · obtain ⟨hm, hos, hc, ⟨scripts, hl⟩, hr⟩ := hok
    rw [apiInstall_accept reg h now r s scripts hm hos hc hl hr]
    refine ⟨job_launch_same _ _ _ _, ?_, fun c hc => job_launch_other s hwf _ _ _ c hc⟩
    intro q hq hqc
    simp [apiInstallStatus, apiInstallStatusAt, hq, hqc, Store.launch]
  · have hrej : r.Method ≠ "POST" ∨ h.GOOS ≠ "linux" ∨
        installableComponents (installComp r) = false ∨
        reg.lookup (installComp r) = none ∨ s.running (installComp r) = true := by
      by_contra hcon
      simp only [not_or, ne_eq, not_not, Bool.not_eq_false, Bool.not_eq_true] at hcon
      obtain ⟨a1, a2, a3, a4, a5⟩ := hcon
      exact hok ⟨a1, a2, a3, Option.ne_none_iff_exists'.mp a4, a5⟩
    exact absurd hacc (apiInstall_reject reg h now r s hrej).1

/-- Witness of C4: restarting redis after a failed installation overwrites the failed
snapshot. -/
theorem apiInstall_accepted_entry_witness :
    failedRedis.WF ∧
    failedRedis.job "redis" = some ⟨false, true, false, "E: Unable to locate package", 7⟩ ∧
    (apiInstall installScripts ubuntu2204 20 postRedis failedRedis).1 = installStarted ∧
    (apiInstall installScripts ubuntu2204 20 postRedis failedRedis).2.job
      (installComp postRedis) = some ⟨true, false, false, "", 20⟩ :=
  ⟨(Inv_of_reachable failedRedis reachable_failedRedis).1, by decide, by decide,
    (apiInstall_accepted_entry installScripts ubuntu2204 20 postRedis failedRedis
      (Inv_of_reachable failedRedis reachable_failedRedis).1 (by decide)).1⟩

/-- C5: when the subprocess of the pending goroutine for component C returns the error
value `err` and the combined output `out`, the completion step sets C's entry (Running
or not) to
Running=false, Done=true, Success=(`err` is nil), Output=`out`, keeps its Start time and
changes no other component's entry; so a command exiting 0 ends Done with success=true
and a command exiting 1 ends Done with success=false, with its text as the output. -/
theorem goroutineExit_records (s : Store) (hwf : s.WF) (i : Nat) (comp cmd : String)
    (j : installJob) (err : Option String) (out : String)
    (hg : s.goroutines.get? i = some (comp, cmd)) (hj : s.job comp = some j) :
    (goroutineExit i err out s).job comp = some ⟨false, true, err.isNone, out, j.Start⟩ ∧
    (∀ c, c ≠ comp → (goroutineExit i err out s).job c = s.job c) ∧
    (goroutineExit i (exitError 0) out s).job comp = some ⟨false, true, true, out, j.Start⟩ ∧
    (goroutineExit i (exitError 1) out s).job comp = some ⟨false, true, false, out, j.Start⟩ := by
  have hwf1 : Store.WF { s with goroutines := s.goroutines.eraseIdx i } := hwf
  have hj1 : Store.job { s with goroutines := s.goroutines.eraseIdx i } comp = some j := hj
  have hstep : ∀ e, goroutineExit i e out s =
      installDone comp e out { s with goroutines := s.goroutines.eraseIdx i } := by
    intro e
    unfold goroutineExit
    rw [hg]
  refine ⟨?_, ?_, ?_, ?_⟩
  · rw [hstep, job_installDone_same _ comp err out j hj1]
  · intro c hc
    rw [hstep, job_installDone_other _ hwf1 comp err out c hc]
    rfl
  · rw [hstep, job_installDone_same _ comp _ out j hj1]
    rfl
  · rw [hstep, job_installDone_same _ comp _ out j hj1]
    rfl

/-- Witness of C5: the running redis installation fails with exit status 1. -/
theorem goroutineExit_records_witness :
    busyRedis.WF ∧ busyRedis.goroutines.get? 0 =
      some ("redis", "sudo apt update && sudo apt install -y redis-server") ∧
    busyRedis.job "redis" = some ⟨true, false, false, "", 7⟩ ∧
    failedRedis.job "redis" =
      some ⟨false, true, false, "E: Unable to locate package", 7⟩ :=
  ⟨(Inv_of_reachable busyRedis reachable_busyRedis).1, by decide, by decide,
    (goroutineExit_records busyRedis (Inv_of_reachable busyRedis reachable_busyRedis).1 0
      "redis" "sudo apt update && sudo apt install -y redis-server"
      ⟨true, false, false, "", 7⟩ (exitError 1) "E: Unable to locate package"
      (by decide) (by decide)).1⟩

/-- C6: a status query (`GET`) for a component with no job entry is answered with the
idle snapshot `running=false, done=false`, without a success or output field and not
with an error; and every status query, whatever the component, returns the store it was
given. -/
theorem apiInstallStatus_idle (r : Request) (s : Store) :
    (r.Method = "GET" → s.job (statusComp r) = none →
      (apiInstallStatus r s).1 =
        .writeJSON [("running", .bool false), ("done", .bool false)]) ∧
    (apiInstallStatus r s).2 = s := by
  refine ⟨?_, rfl⟩
  intro hm hj
  have hp : s.installJobs (statusComp r) = none := by
    unfold Store.job at hj
    cases hq : s.installJobs (statusComp r) with
    | none => rfl
    | some p => simp [hq] at hj
  simp [apiInstallStatus, apiInstallStatusAt, hm, hp]

/-- Witness of C6: a status query for redis before any start request. -/
theorem apiInstallStatus_idle_witness :
    statusRedis.Method = "GET" ∧ Store.empty.job (statusComp statusRedis) = none ∧
    (apiInstallStatus statusRedis Store.empty).1 =
      .writeJSON [("running", .bool false), ("done", .bool false)] :=
  ⟨rfl, rfl, (apiInstallStatus_idle statusRedis Store.empty).1 rfl rfl⟩

/-- C7, the code at the failing interleaving: `apiInstallStatus` fetches the pointer of
the running redis job under the read lock and reads `Running` before the completion of
the subprocess is committed, then reads `Done`, `Success` and `Output` after it.  The
snapshot it reports has `running=true` together with `done=true`, which is the job entry
of no reachable state. -/
theorem apiInstallStatus_torn_read :
    Reachable busyRedis ∧ Step busyRedis failedRedis ∧
    busyRedis.job "redis" = some ⟨true, false, false, "", 7⟩ ∧
    failedRedis.job "redis" = some ⟨false, true, false, "E: Unable to locate package", 7⟩ ∧
    apiInstallStatusAt statusRedis busyRedis busyRedis failedRedis failedRedis failedRedis =
      .writeJSON [("running", .bool true), ("done", .bool true), ("success", .bool false),
        ("output", .str "E: Unable to locate package")] ∧
    ∀ s, Reachable s → ∀ c j, s.job c = some j → ¬ (j.Running = true ∧ j.Done = true) := by
  refine ⟨reachable_busyRedis,
    Step.finish 0 (exitError 1) "E: Unable to locate package" busyRedis (by decide),
    by decide, by decide, by decide, ?_⟩
  intro s hs c j hj hboth
  have h := ((Inv_of_reachable s hs).2.2 c j hj).1
  rw [hboth.1, hboth.2] at h
  cases h

/-! ## Claims on the remediation registry -/

theorem detectDistro_not_linux (h : Host) (hos : h.GOOS ≠ "linux") :
    detectDistro h = ("", "") := by
  simp [detectDistro, hos]

theorem ubuntuLTS_iff (dv : String × String) :
    ubuntuLTS dv = true ↔ dv.1 = "ubuntu" ∧
      (strings.HasPrefix dv.2 "22" = true ∨ strings.HasPrefix dv.2 "24" = true) := by
  simp [ubuntuLTS]

theorem linux_of_ubuntu (h : Host) (hd : (detectDistro h).1 = "ubuntu") : h.GOOS = "linux" := by
  by_contra hos
  rw [detectDistro_not_linux h hos] at hd
  exact absurd hd (by decide)

theorem lookup_ubuntu22 (scripts : List (String × String)) :
    index scripts "ubuntu22" = "" ↔
      scripts.lookup "ubuntu22" = none ∨ scripts.lookup "ubuntu22" = some "" := by
  unfold index
  cases scripts.lookup "ubuntu22" <;> simp

theorem apiInstallScript_select_eq (h : Host) (scripts : List (String × String)) :
    apiInstallScript_select h scripts =
      if ubuntuLTS (detectDistro h) = true ∧ index scripts "ubuntu22" ≠ "" then
        ("ubuntu22", index scripts "ubuntu22")
      else if h.GOOS = "windows" then ("windows", index scripts "windows")
      else ("linux", index scripts "linux") := by
  unfold apiInstallScript_select
  by_cases hw : h.GOOS = "windows"
  · have hl : h.GOOS ≠ "linux" := by
      rw [hw]
      decide
    have hu : ubuntuLTS (detectDistro h) = false := by
      rw [detectDistro_not_linux h hl]
      decide
    have hne : ¬ ("windows" = "linux") := by decide
    simp [hw, hu, hne]
  · by_cases hu : ubuntuLTS (detectDistro h) = true
    · cases hk : scripts.lookup "ubuntu22" with
      | none => simp [hw, hu, hk, index]
      | some u =>
        by_cases hu0 : u = ""
        · simp [hw, hu, hk, index, hu0]
        · simp [hw, hu, hk, index, hu0]
    · simp [hw, hu]

theorem apiInstall_select_eq (h : Host) (scripts : List (String × String)) :
    apiInstall_select h scripts =
      if ubuntuLTS (detectDistro h) = true ∧ index scripts "ubuntu22" ≠ "" then
        ("ubuntu22", index scripts "ubuntu22")
      else ("linux", index scripts "linux") := by
  unfold apiInstall_select
  by_cases hu : ubuntuLTS (detectDistro h) = true
  · cases hk : scripts.lookup "ubuntu22" with
    | none => simp [hu, hk, index]
    | some u =>
      by_cases hu0 : u = ""
      · simp [hu, hk, index, hu0]
      · simp [hu, hk, index, hu0]
  · simp [hu]

/-- C8, counterexample: on an Ubuntu host whose `VERSION_ID` is 220.04 the major release
number (the digits before the first dot) is 220, neither 22 nor 24, and yet the lookup
for redis reports tier `ubuntu22` with the specialised command. -/
theorem apiInstallScript_prefix_not_major :
    detectDistro ubuntu22004 = ("ubuntu", "220.04") ∧
    majorRelease "220.04" = some 220 ∧
    apiInstallScript installScripts ubuntu22004 ⟨"GET", "/api/install-script/redis"⟩ =
      .writeJSON [("platform", .str "ubuntu22"), ("component", .str "redis"),
        ("command", .str "sudo apt update && sudo apt install -y redis-server")] := by
  refine ⟨by decide, by decide, by decide⟩

/-- C8, amended: for every component of the registry, the lookup `apiInstallScript`
reports tier `ubuntu22` if and only if the family is Linux, the distro id is `ubuntu`,
the distro version starts with the characters `22` or `24` (a string-prefix test), and
the component's `ubuntu22` command is non-empty; otherwise it reports `windows` on the
Windows family and `linux` on every other family; and the command it returns is the one
registered for the reported tier. -/
theorem apiInstallScript_tier (reg : List (String × List (String × String))) (h : Host)
    (path : String) (scripts : List (String × String))
    (hl : reg.lookup (strings.TrimPrefix path "/api/install-script/") = some scripts) :
    ∃ tier : String,
      (tier = if h.GOOS = "linux" ∧ (detectDistro h).1 = "ubuntu" ∧
            (strings.HasPrefix (detectDistro h).2 "22" = true ∨
              strings.HasPrefix (detectDistro h).2 "24" = true) ∧
            index scripts "ubuntu22" ≠ "" then "ubuntu22"
          else if h.GOOS = "windows" then "windows" else "linux") ∧
      apiInstallScript reg h ⟨"GET", path⟩ =
        .writeJSON [("platform", .str tier),
          ("component", .str (strings.TrimPrefix path "/api/install-script/")),
          ("command", .str (index scripts tier))] := by
  refine ⟨_, rfl, ?_⟩
  simp only [apiInstallScript, ne_eq, not_true_eq_false, if_false, hl,
    apiInstallScript_select_eq]
  by_cases hu : ubuntuLTS (detectDistro h) = true ∧ index scripts "ubuntu22" ≠ ""
  · have hu2 := (ubuntuLTS_iff _).mp hu.1
    have hc : h.GOOS = "linux" ∧ (detectDistro h).1 = "ubuntu" ∧
        (strings.HasPrefix (detectDistro h).2 "22" = true ∨
          strings.HasPrefix (detectDistro h).2 "24" = true) ∧
        index scripts "ubuntu22" ≠ "" := ⟨linux_of_ubuntu h hu2.1, hu2.1, hu2.2, hu.2⟩
    rw [if_pos hu, if_pos hc]
  · have hc : ¬ (h.GOOS = "linux" ∧ (detectDistro h).1 = "ubuntu" ∧
        (strings.HasPrefix (detectDistro h).2 "22" = true ∨
          strings.HasPrefix (detectDistro h).2 "24" = true) ∧
        index scripts "ubuntu22" ≠ "") := by
      rintro ⟨_, h1, h2, h3⟩
      exact hu ⟨(ubuntuLTS_iff _).mpr ⟨h1, h2⟩, h3⟩
    rw [if_neg hu, if_neg hc]
    by_cases hw : h.GOOS = "windows"
    · rw [if_pos hw, if_pos hw]
    · rw [if_neg hw, if_neg hw]

/-- Witness of C8: the lookup for redis on Ubuntu 22.04. -/
theorem apiInstallScript_tier_witness :
    installScripts.lookup (strings.TrimPrefix "/api/install-script/redis"
      "/api/install-script/") =
      some [("windows", "winget install Redis.Redis --accept-package-agreements"),
        ("linux", "sudo apt install -y redis-server || sudo dnf install -y redis"),
        ("ubuntu22", "sudo apt update && sudo apt install -y redis-server")] ∧
    ∃ tier : String,
      (tier = if ubuntu2204.GOOS = "linux" ∧ (detectDistro ubuntu2204).1 = "ubuntu" ∧
            (strings.HasPrefix (detectDistro ubuntu2204).2 "22" = true ∨
              strings.HasPrefix (detectDistro ubuntu2204).2 "24" = true) ∧
            index [("windows", "winget install Redis.Redis --accept-package-agreements"),
              ("linux", "sudo apt install -y redis-server || sudo dnf install -y redis"),
              ("ubuntu22", "sudo apt update && sudo apt install -y redis-server")]
              "ubuntu22" ≠ "" then "ubuntu22"
          else if ubuntu2204.GOOS = "windows" then "windows" else "linux") ∧
      apiInstallScript installScripts ubuntu2204 ⟨"GET", "/api/install-script/redis"⟩ =
        .writeJSON [("platform", .str tier),
          ("component", .str (strings.TrimPrefix "/api/install-script/redis"
            "/api/install-script/")),
          ("command", .str (index
            [("windows", "winget install Redis.Redis --accept-package-agreements"),
              ("linux", "sudo apt install -y redis-server || sudo dnf install -y redis"),
              ("ubuntu22", "sudo apt update && sudo apt install -y redis-server")] tier))] :=
  ⟨by decide, apiInstallScript_tier installScripts ubuntu2204 "/api/install-script/redis" _
    (by decide)⟩

/-- C9: for every registry entry whose `ubuntu22` command is non-empty, on a Linux host
whose distro id is `ubuntu`: with distro version `22.04` the lookup `apiInstallScript`
returns tier `ubuntu22` with the entry's `ubuntu22` command, and `apiInstall` resolves
the same command; with distro version `20.04` both resolve to tier `linux` and the
entry's generic `linux` command. -/
theorem ubuntu_2204_specialised_2004_generic (reg : List (String × List (String × String)))
    (h22 h20 : Host) (path : String) (scripts : List (String × String))
    (hl : reg.lookup (strings.TrimPrefix path "/api/install-script/") = some scripts)
    (hne : index scripts "ubuntu22" ≠ "")
    (hd22 : detectDistro h22 = ("ubuntu", "22.04"))
    (hd20 : detectDistro h20 = ("ubuntu", "20.04")) :
    apiInstallScript reg h22 ⟨"GET", path⟩ =
      .writeJSON [("platform", .str "ubuntu22"),
        ("component", .str (strings.TrimPrefix path "/api/install-script/")),
        ("command", .str (index scripts "ubuntu22"))] ∧
    apiInstall_select h22 scripts = ("ubuntu22", index scripts "ubuntu22") ∧
    apiInstallScript reg h20 ⟨"GET", path⟩ =
      .writeJSON [("platform", .str "linux"),
        ("component", .str (strings.TrimPrefix path "/api/install-script/")),
        ("command", .str (index scripts "linux"))] ∧
    apiInstall_select h20 scripts = ("linux", index scripts "linux") := by
  have hu22 : ubuntuLTS (detectDistro h22) = true := by
    rw [hd22]
    decide
  have hu20 : ubuntuLTS (detectDistro h20) = false := by
    rw [hd20]
    decide
  have hw20 : h20.GOOS ≠ "windows" := by
    rw [linux_of_ubuntu h20 (by rw [hd20])]
    decide
  refine ⟨?_, ?_, ?_, ?_⟩
  · simp [apiInstallScript, hl, apiInstallScript_select_eq, hu22, hne]
  · simp [apiInstall_select_eq, hu22, hne]
  · simp [apiInstallScript, hl, apiInstallScript_select_eq, hu20, hw20]
  · simp [apiInstall_select_eq, hu20]

/-- Witness of C9: redis on Ubuntu 22.04 and on Ubuntu 20.04. -/
theorem ubuntu_2204_specialised_2004_generic_witness :
    detectDistro ubuntu2204 = ("ubuntu", "22.04") ∧
    detectDistro ubuntu2004 = ("ubuntu", "20.04") ∧
    apiInstallScript installScripts ubuntu2204 ⟨"GET", "/api/install-script/redis"⟩ =
      .writeJSON [("platform", .str "ubuntu22"), ("component", .str "redis"),
        ("command", .str "sudo apt update && sudo apt install -y redis-server")] ∧
    apiInstallScript installScripts ubuntu2004 ⟨"GET", "/api/install-script/redis"⟩ =
      .writeJSON [("platform", .str "linux"), ("component", .str "redis"),
        ("command", .str "sudo apt install -y redis-server || sudo dnf install -y redis")] :=
  ⟨by decide, by decide,
    (ubuntu_2204_specialised_2004_generic installScripts ubuntu2204 ubuntu2004
      "/api/install-script/redis"
      [("windows", "winget install Redis.Redis --accept-package-agreements"),
        ("linux", "sudo apt install -y redis-server || sudo dnf install -y redis"),
        ("ubuntu22", "sudo apt update && sudo apt install -y redis-server")]
      (by decide) (by decide) (by decide) (by decide)).1,
    (ubuntu_2204_specialised_2004_generic installScripts ubuntu2204 ubuntu2004
      "/api/install-script/redis"
      [("windows", "winget install Redis.Redis --accept-package-agreements"),
        ("linux", "sudo apt install -y redis-server || sudo dnf install -y redis"),
        ("ubuntu22", "sudo apt update && sudo apt install -y redis-server")]
      (by decide) (by decide) (by decide) (by decide)).2.2.1⟩

/-- C10: for every registry entry whose `ubuntu22` command is empty or missing and
every host, whatever distro id and version it reports (a matching Ubuntu 22 or 24
included), the tier selection of `apiInstall` resolves to tier `linux` and the entry's
generic `linux` command, and so does the tier selection of `apiInstallScript` on every
family but Windows (where no distro is read and the `windows` tier is reported); when
the handlers are run on such an entry, the lookup reports that tier and command and an
accepted install launches that command. -/
theorem empty_ubuntu22_falls_back (h : Host) (scripts : List (String × String))
    (hempty : scripts.lookup "ubuntu22" = none ∨ scripts.lookup "ubuntu22" = some "") :
    apiInstall_select h scripts = ("linux", index scripts "linux") ∧
    (h.GOOS ≠ "windows" →
      apiInstallScript_select h scripts = ("linux", index scripts "linux")) ∧
    (∀ (reg : List (String × List (String × String))) (path : String),
      h.GOOS ≠ "windows" →
      reg.lookup (strings.TrimPrefix path "/api/install-script/") = some scripts →
      apiInstallScript reg h ⟨"GET", path⟩ =
        .writeJSON [("platform", .str "linux"),
          ("component", .str (strings.TrimPrefix path "/api/install-script/")),
          ("command", .str (index scripts "linux"))]) ∧
    (∀ (reg : List (String × List (String × String))) (now : Nat) (r : Request) (s : Store),
      reg.lookup (installComp r) = some scripts →
      (apiInstall reg h now r s).1 = installStarted →
      (apiInstall reg h now r s).2.goroutines =
        s.goroutines ++ [(installComp r, index scripts "linux")]) := by
  have he : index scripts "ubuntu22" = "" := (lookup_ubuntu22 scripts).mpr hempty
  have hsel : apiInstall_select h scripts = ("linux", index scripts "linux") := by
    simp [apiInstall_select_eq, he]
  have hscr : h.GOOS ≠ "windows" →
      apiInstallScript_select h scripts = ("linux", index scripts "linux") := by
    intro hw
    simp [apiInstallScript_select_eq, he, hw]
  refine ⟨hsel, hscr, ?_, ?_⟩
  · intro reg path hw hl
    simp [apiInstallScript, hl, hscr hw]
  · intro reg now r s hl hacc
    by_cases hok : r.Method = "POST" ∧ h.GOOS = "linux" ∧
        installableComponents (installComp r) = true ∧ s.running (installComp r) = false
    · obtain ⟨hm, hos, hc, hr⟩ := hok
      rw [apiInstall_accept reg h now r s scripts hm hos hc hl hr, hsel]
      rfl
    · have hrej : r.Method ≠ "POST" ∨ h.GOOS ≠ "linux" ∨
          installableComponents (installComp r) = false ∨
          reg.lookup (installComp r) = none ∨ s.running (installComp r) = true := by
        by_contra hcon
        simp only [not_or, ne_eq, not_not, Bool.not_eq_false, Bool.not_eq_true] at hcon
        exact hok ⟨hcon.1, hcon.2.1, hcon.2.2.1, hcon.2.2.2.2⟩
      exact absurd hacc (apiInstall_reject reg h now r s hrej).1

/-- Witness of C10: a component without a specialised command, looked up on Ubuntu
22.04. -/
theorem empty_ubuntu22_falls_back_witness :
    ([("windows", "winget install tool"), ("linux", "make install"),
        ("ubuntu22", "")].lookup "ubuntu22" = some "") ∧
    ubuntuLTS (detectDistro ubuntu2204) = true ∧
    apiInstallScript toolRegistry ubuntu2204 ⟨"GET", "/api/install-script/tool"⟩ =
      .writeJSON [("platform", .str "linux"), ("component", .str "tool"),
        ("command", .str "make install")] :=
  ⟨by decide, by decide,
    (empty_ubuntu22_falls_back ubuntu2204
      [("windows", "winget install tool"), ("linux", "make install"), ("ubuntu22", "")]
      (Or.inr (by decide))).2.2.1 toolRegistry "/api/install-script/tool"
      (by decide) (by decide)⟩

/-! ## Claims on the version comparator -/

theorem SkipSpace_eq (cs rest : List Char) (h : fmt.SkipSpace cs = some rest) :
    rest = cs.dropWhile strings.isSpace := by
  induction cs with
  | nil =>
    simp [fmt.SkipSpace] at h
    simp [h]
  | cons c cs ih =>
    unfold fmt.SkipSpace at h
    by_cases hn : c = '\n'
    · simp [hn] at h
    · by_cases hsp : strings.isSpace c = true
      · simp only [hn, if_false, hsp, if_true] at h
        rw [List.dropWhile_cons_of_pos hsp]
        exact ih h
      · simp only [hn, if_false, hsp] at h
        rw [List.dropWhile_cons_of_neg hsp]
        simpa using h.symm

theorem Sscanf_zero (f : String) (hf : startsWithNumber f = false) : fmt.Sscanf f = 0 := by
  unfold fmt.Sscanf
  cases hsk : fmt.SkipSpace f.data with
  | none => rfl
  | some cs =>
    have hcs := SkipSpace_eq _ _ hsk
    unfold startsWithNumber at hf
    rw [← hcs] at hf
    cases cs with
    | nil => simp
    | cons c r =>
      simp only at hf ⊢
      by_cases hsign : c = '+' ∨ c = '-'
      · simp only [hsign, if_true] at hf ⊢
        cases r with
        | nil => simp
        | cons d r' =>
          simp only at hf
          simp [List.takeWhile_cons, hf]
      · simp only [hsign, if_false] at hf ⊢
        simp [List.takeWhile_cons, hf]

theorem versionGE_loop_congr (va va' vb vb' : List String) (is : List Nat)
    (ha : ∀ i ∈ is, versionField va' i = versionField va i)
    (hb : ∀ i ∈ is, versionField vb' i = versionField vb i) :
    versionGE_loop va' vb' is = versionGE_loop va vb is := by
  induction is with
  | nil => rfl
  | cons i rest ih =>
    unfold versionGE_loop
    rw [ha i (List.mem_cons_self _ _), hb i (List.mem_cons_self _ _),
      ih (fun j hj => ha j (List.mem_cons_of_mem _ hj))
        (fun j hj => hb j (List.mem_cons_of_mem _ hj))]

/-- C12: `versionGE v min` is true exactly when the triple of integers it scans from the
first three dot-separated fields of `v` (0 for a missing field) is lexicographically
greater than or equal to the triple it scans from `min`: the most significant unequal
pair decides, and three equal pairs give true. -/
theorem versionGE_iff_lex (v min : String) :
    versionGE v min = true ↔
      versionField (strings.Split v '.') 0 > versionField (strings.Split min '.') 0 ∨
      (versionField (strings.Split v '.') 0 = versionField (strings.Split min '.') 0 ∧
        (versionField (strings.Split v '.') 1 > versionField (strings.Split min '.') 1 ∨
          (versionField (strings.Split v '.') 1 = versionField (strings.Split min '.') 1 ∧
            versionField (strings.Split v '.') 2 ≥
              versionField (strings.Split min '.') 2))) := by
  unfold versionGE
  simp only [versionGE_loop]
  generalize versionField (strings.Split v '.') 0 = a0
  generalize versionField (strings.Split v '.') 1 = a1
  generalize versionField (strings.Split v '.') 2 = a2
  generalize versionField (strings.Split min '.') 0 = b0
  generalize versionField (strings.Split min '.') 1 = b1
  generalize versionField (strings.Split min '.') 2 = b2
  split_ifs <;> simp <;> omega

/-- C13, counterexample: the component `2rc1` is not a plain decimal number, yet it is
scanned as 2 and not as 0: `versionGE "2rc1" "1"` is true while, with the component
replaced by `0`, `versionGE "0" "1"` is false. -/
theorem versionGE_2rc1 :
    fmt.Sscanf "2rc1" = 2 ∧ versionGE "2rc1" "1" = true ∧ versionGE "0" "1" = false := by
  decide

/-- C13, amended: in `versionGE`, every one of the first three components that is
missing or does not begin with a decimal number (a digit, after optional white space
and an optional sign; `abc` and the empty string are such components) is treated as 0:
replacing such components of either argument by `0` never changes the result. -/
theorem versionGE_zero_component (v w min : String)
    (hrepl : ∀ i, i < 3 →
      (strings.Split w '.').get? i = (strings.Split v '.').get? i ∨
      ((strings.Split w '.').get? i = some "0" ∧
        ∀ f, (strings.Split v '.').get? i = some f → startsWithNumber f = false)) :
    versionGE w min = versionGE v min ∧ versionGE min w = versionGE min v := by
  have hfield : ∀ i ∈ [0, 1, 2],
      versionField (strings.Split w '.') i = versionField (strings.Split v '.') i := by
    intro i hi
    have hi3 : i < 3 := by
      simp at hi
      omega
    rcases hrepl i hi3 with h | ⟨h0, hz⟩
    · unfold versionField
      rw [h]
    · unfold versionField
      rw [h0]
      cases hv : (strings.Split v '.').get? i with
      | none => decide
      | some f =>
        simp only
        rw [Sscanf_zero f (hz f hv)]
        decide
  exact ⟨versionGE_loop_congr _ _ _ _ _ hfield (fun _ _ => rfl),
    versionGE_loop_congr _ _ _ _ _ (fun _ _ => rfl) hfield⟩

/-- Witness of C13: `abc..7`, whose first two components do not begin with a number,
against `0.0.7`. -/
theorem versionGE_zero_component_witness :
    (∀ i, i < 3 →
      (strings.Split "0.0.7" '.').get? i = (strings.Split "abc..7" '.').get? i ∨
      ((strings.Split "0.0.7" '.').get? i = some "0" ∧
        ∀ f, (strings.Split "abc..7" '.').get? i = some f → startsWithNumber f = false)) ∧
    versionGE "0.0.7" "0.0.5" = versionGE "abc..7" "0.0.5" :=
  ⟨by decide, (versionGE_zero_component "abc..7" "0.0.7" "0.0.5" (by decide)).1⟩

/-- C14: the documented examples of `versionGE` evaluate as stated. -/
theorem versionGE_examples :
    versionGE "1.2.3" "1.2.3" = true ∧ versionGE "1.2.0" "1.3.0" = false ∧
    versionGE "2.0.0" "1.9.9" = true ∧ versionGE "" "0.0.0" = true ∧
    versionGE "abc" "1.0.0" = false ∧ versionGE "abc" "0.0.0" = true := by
  decide

/-! ## Claims on the lookup of unknown components and on distro detection -/

theorem installScripts_lookup_none_iff (c : String) :
    installScripts.lookup c = none ↔
      c ∉ ["node", "python", "uv", "postgresql", "redis", "inngest", "bash", "caddy"] := by
  constructor
  · intro hnone hmem
    simp only [List.mem_cons, List.mem_singleton, List.not_mem_nil, or_false] at hmem
    rcases hmem with rfl | rfl | rfl | rfl | rfl | rfl | rfl | rfl <;> exact absurd hnone (by decide)
  · intro hnot
    simp only [List.mem_cons, List.mem_singleton, List.not_mem_nil, or_false, not_or] at hnot
    obtain ⟨h1, h2, h3, h4, h5, h6, h7, h8⟩ := hnot
    rw [List.lookup_eq_none_iff]
    intro p hp
    simp only [installScripts, List.mem_cons, List.mem_singleton, List.not_mem_nil,
      or_false] at hp
    rcases hp with rfl | rfl | rfl | rfl | rfl | rfl | rfl | rfl <;> simpa

/-- C11: over the static registry, a `GET` to `apiInstallScript` is answered with the
404 "unknown component" error if and only if the requested name is not one of node,
python, uv, postgresql, redis, inngest, bash, caddy; for each of these names it returns,
on every host, an object with a platform, the component and a command. -/
theorem apiInstallScript_not_found_iff (h : Host) (path : String) :
    (apiInstallScript installScripts h ⟨"GET", path⟩ = .Error "unknown component" 404 ↔
      strings.TrimPrefix path "/api/install-script/" ∉
        ["node", "python", "uv", "postgresql", "redis", "inngest", "bash", "caddy"]) ∧
    (strings.TrimPrefix path "/api/install-script/" ∈
        ["node", "python", "uv", "postgresql", "redis", "inngest", "bash", "caddy"] →
      ∃ plat cmd, apiInstallScript installScripts h ⟨"GET", path⟩ =
        .writeJSON [("platform", .str plat),
          ("component", .str (strings.TrimPrefix path "/api/install-script/")),
          ("command", .str cmd)]) := by
  rw [← installScripts_lookup_none_iff]
  constructor
  · constructor
    · intro herr
      cases hl : installScripts.lookup (strings.TrimPrefix path "/api/install-script/") with
      | none => rfl
      | some scripts => simp [apiInstallScript, hl] at herr
    · intro hl
      simp [apiInstallScript, hl]
  · intro hmem
    have hne := (not_iff_not.mpr (installScripts_lookup_none_iff _)).mpr (not_not.mpr hmem)
    obtain ⟨scripts, hl⟩ := Option.ne_none_iff_exists'.mp hne
    exact ⟨(apiInstallScript_select h scripts).1, (apiInstallScript_select h scripts).2,
      by simp [apiInstallScript, hl]⟩

/-- Witness of C11: bash is a key of the registry although it cannot be installed
automatically. -/
theorem apiInstallScript_not_found_iff_witness :
    strings.TrimPrefix "/api/install-script/bash" "/api/install-script/" ∈
        ["node", "python", "uv", "postgresql", "redis", "inngest", "bash", "caddy"] ∧
    ∃ plat cmd, apiInstallScript installScripts ubuntu2204
        ⟨"GET", "/api/install-script/bash"⟩ =
      .writeJSON [("platform", .str plat),
        ("component", .str (strings.TrimPrefix "/api/install-script/bash"
          "/api/install-script/")),
        ("command", .str cmd)] :=
  ⟨by decide,
    (apiInstallScript_not_found_iff ubuntu2204 "/api/install-script/bash").2 (by decide)⟩

theorem detectDistro_foldl (ls : List String) (acc : String × String) :
    ls.foldl detectDistroLine acc =
      ((((ls.map strings.TrimSpace).filter (fun l => strings.HasPrefix l "ID=")).getLast?.map
          (fieldValue "ID=")).getD acc.1,
        (((ls.map strings.TrimSpace).filter
          (fun l => strings.HasPrefix l "VERSION_ID=")).getLast?.map
          (fieldValue "VERSION_ID=")).getD acc.2) := by
  induction ls using List.reverseRecOn with
  | nil => rfl
  | append_singleton l x ih =>
    rw [List.foldl_append, ih]
    simp only [List.foldl_cons, List.foldl_nil, List.map_append, List.map_cons, List.map_nil,
      List.filter_append, detectDistroLine]
    by_cases h1 : strings.HasPrefix (strings.TrimSpace x) "ID=" = true <;>
      by_cases h2 : strings.HasPrefix (strings.TrimSpace x) "VERSION_ID=" = true <;>
      simp [h1, h2, List.filter_cons, fieldValue]

theorem detectDistro_linux (data : String) :
    detectDistro ⟨"linux", some data⟩ =
      ((((osReleaseLines data).filter (fun l => strings.HasPrefix l "ID=")).getLast?.map
          (fieldValue "ID=")).getD "",
        (((osReleaseLines data).filter
          (fun l => strings.HasPrefix l "VERSION_ID=")).getLast?.map
          (fieldValue "VERSION_ID=")).getD "") := by
  simp only [detectDistro, ne_eq, not_true_eq_false, if_false, detectDistro_foldl,
    osReleaseLines]

/-- C19, counterexample: in a file with the lines `ID=ubuntu`, `VERSION_ID="22.04"`,
`ID=debian`, `VERSION_ID="12"` the first occurrences give ubuntu and 22.04, but
`detectDistro` returns debian and 12. -/
theorem detectDistro_first_loses :
    ((osReleaseLines twoDistros).find? (fun l => strings.HasPrefix l "ID=")).map
        (fieldValue "ID=") = some "ubuntu" ∧
    ((osReleaseLines twoDistros).find? (fun l => strings.HasPrefix l "VERSION_ID=")).map
        (fieldValue "VERSION_ID=") = some "22.04" ∧
    detectDistro ⟨"linux", some twoDistros⟩ = ("debian", "12") := by
  decide

/-- C19, amended: for every os-release file content on the Linux family, `detectDistro`
returns as distro the value of the last line (after trimming surrounding white space)
that starts with `ID=`, and as version the value of the last such line that starts with
`VERSION_ID=`, each with surrounding double quotes removed, and the empty string for a
field no line sets: when a field occurs on several lines, the last occurrence wins. -/
theorem detectDistro_last_wins (data : String) :
    detectDistro ⟨"linux", some data⟩ =
      ((((osReleaseLines data).filter (fun l => strings.HasPrefix l "ID=")).getLast?.map
          (fieldValue "ID=")).getD "",
        (((osReleaseLines data).filter
          (fun l => strings.HasPrefix l "VERSION_ID=")).getLast?.map
          (fieldValue "VERSION_ID=")).getD "") := by
  unfold detectDistro osReleaseLines
  rw [if_neg (fun hne => hne rfl)]
  exact detectDistro_foldl (strings.Split data '\n') ("", "")

/-- C20: `detectDistro` is a total function that degrades to empty strings: on a family
other than Linux, and when the os-release file cannot be read, it returns two empty
strings; on Linux, if no trimmed line of the file starts with `ID=` the distro is empty,
and if no trimmed line starts with `VERSION_ID=` the version is empty. -/
theorem detectDistro_degrades (h : Host) :
    (h.GOOS ≠ "linux" → detectDistro h = ("", "")) ∧
    (h.osRelease = none → detectDistro h = ("", "")) ∧
    ∀ data, h.GOOS = "linux" → h.osRelease = some data →
      ((∀ l ∈ osReleaseLines data, strings.HasPrefix l "ID=" = false) →
        (detectDistro h).1 = "") ∧
      ((∀ l ∈ osReleaseLines data, strings.HasPrefix l "VERSION_ID=" = false) →
        (detectDistro h).2 = "") := by
  refine ⟨detectDistro_not_linux h, ?_, ?_⟩
  · intro hnone
    unfold detectDistro
    rw [hnone]
    split_ifs <;> rfl
  · intro data hos hdata
    have hh : h = ⟨"linux", some data⟩ := by
      cases h
      simp_all
    rw [hh, detectDistro_linux]
    constructor
    · intro hno
      have : (osReleaseLines data).filter (fun l => strings.HasPrefix l "ID=") = [] := by
        rw [List.filter_eq_nil_iff]
        intro l hl
        simp [hno l hl]
      simp [this]
    · intro hno
      have : (osReleaseLines data).filter
          (fun l => strings.HasPrefix l "VERSION_ID=") = [] := by
        rw [List.filter_eq_nil_iff]
        intro l hl
        simp [hno l hl]
      simp [this]

/-- Witness of C20: a file whose only assignments are `ID_LIKE` and `VERSION`. -/
theorem detectDistro_degrades_witness :
    (∀ l ∈ osReleaseLines "ID_LIKE=debian\nVERSION=\"22.04.3 LTS\"\n",
      strings.HasPrefix l "ID=" = false) ∧
    (detectDistro ⟨"linux", some "ID_LIKE=debian\nVERSION=\"22.04.3 LTS\"\n"⟩).1 = "" ∧
    detectDistro ⟨"windows", some "ID=ubuntu\n"⟩ = ("", "") :=
  ⟨by decide,
    ((detectDistro_degrades ⟨"linux", some "ID_LIKE=debian\nVERSION=\"22.04.3 LTS\"\n"⟩).2.2
      _ rfl rfl).1 (by decide),
    (detectDistro_degrades ⟨"windows", some "ID=ubuntu\n"⟩).1 (by decide)⟩

/-! ## Lemmas on pattern matching -/

namespace regexp

theorem greedy_sound {R : Type} (p : Char → Bool) (k : List Char → List Char → Option R)
    (s acc : List Char) (r : R) (h : greedy p k acc s = some r) :
    ∃ cs u, s = cs ++ u ∧ (∀ c ∈ cs, p c = true) ∧ k (acc ++ cs) u = some r := by
  induction s generalizing acc with
  | nil =>
    refine ⟨[], [], rfl, by simp, ?_⟩
    simpa [greedy] using h
  | cons c cs ih =>
    unfold greedy at h
    by_cases hp : p c = true
    · simp only [hp, if_true] at h
      cases hg : greedy p k (acc ++ [c]) cs with
      | some r1 =>
        rw [hg] at h
        simp only [Option.some.injEq] at h
        subst h
        obtain ⟨cs1, u, hs, hall, hk⟩ := ih (acc ++ [c]) hg
        refine ⟨c :: cs1, u, by simp [hs], ?_, by simpa using hk⟩
        intro d hd
        rcases List.mem_cons.mp hd with rfl | hd
        · exact hp
        · exact hall d hd
      | none =>
        rw [hg] at h
        exact ⟨[], c :: cs, rfl, by simp, by simpa using h⟩
    · simp only [hp] at h
      exact ⟨[], c :: cs, rfl, by simp, by simpa using h⟩

theorem greedy_of_rest {R : Type} (p : Char → Bool) (k : List Char → List Char → Option R)
    (u acc : List Char) (h : (k acc u).isSome = true) : (greedy p k acc u).isSome = true := by
  cases u with
  | nil => simpa [greedy] using h
  | cons c cs =>
    unfold greedy
    by_cases hp : p c = true
    · simp only [hp, if_true]
      cases hg : greedy p k (acc ++ [c]) cs with
      | some r1 => rfl
      | none => exact h
    · simp only [hp]
      exact h

theorem greedy_complete {R : Type} (p : Char → Bool) (k : List Char → List Char → Option R)
    (cs u acc : List Char) (hall : ∀ c ∈ cs, p c = true)
    (h : (k (acc ++ cs) u).isSome = true) : (greedy p k acc (cs ++ u)).isSome = true := by
  induction cs generalizing acc with
  | nil => exact greedy_of_rest p k u acc (by simpa using h)
  | cons c cs ih =>
    have hp : p c = true := hall c (List.mem_cons_self _ _)
    have hrec := ih (acc ++ [c]) (fun d hd => hall d (List.mem_cons_of_mem _ hd))
      (by simpa using h)
    rw [List.cons_append]
    unfold greedy
    simp only [hp, if_true]
    cases hg : greedy p k (acc ++ [c]) (cs ++ u) with
    | some r1 => rfl
    | none =>
      rw [hg] at hrec
      cases hrec

theorem matchAtoms_sound {R : Type} (atoms : List Atom)
    (k : List Char → List Char → Option R) (acc s : List Char) (r : R)
    (h : matchAtoms atoms k acc s = some r) :
    ∃ t u, s = t ++ u ∧ AtomsMatch atoms t ∧ k (acc ++ t) u = some r := by
  induction atoms generalizing k acc s with
  | nil => exact ⟨[], s, rfl, rfl, by simpa [matchAtoms] using h⟩
  | cons a rest ih =>
    cases a with
    | one p =>
      cases s with
      | nil => simp [matchAtoms] at h
      | cons c cs =>
        unfold matchAtoms at h
        by_cases hp : p c = true
        · simp only [hp, if_true] at h
          obtain ⟨t, u, hs, hm, hk⟩ := ih k (acc ++ [c]) cs h
          exact ⟨c :: t, u, by simp [hs], ⟨c, t, rfl, hp, hm⟩, by simpa using hk⟩
        · simp [hp] at h
    | opt p =>
      have hskip : ∀ s1, matchAtoms rest k acc s1 = some r →
          ∃ t u, s1 = t ++ u ∧ AtomsMatch (.opt p :: rest) t ∧ k (acc ++ t) u = some r := by
        intro s1 h1
        obtain ⟨t, u, hs, hm, hk⟩ := ih k acc s1 h1
        exact ⟨t, u, hs, Or.inl hm, hk⟩
      cases s with
      | nil =>
        unfold matchAtoms at h
        exact hskip [] h
      | cons c cs =>
        unfold matchAtoms at h
        by_cases hp : p c = true
        · simp only [hp, if_true] at h
          cases hg : matchAtoms rest k (acc ++ [c]) cs with
          | some r1 =>
            rw [hg] at h
            simp only [Option.some.injEq] at h
            subst h
            obtain ⟨t, u, hs, hm, hk⟩ := ih k (acc ++ [c]) cs hg
            exact ⟨c :: t, u, by simp [hs], Or.inr ⟨c, t, rfl, hp, hm⟩, by simpa using hk⟩
          | none =>
            rw [hg] at h
            exact hskip _ h
        · simp only [hp] at h
          exact hskip _ h
    | plus p =>
      cases s with
      | nil => simp [matchAtoms] at h
      | cons c cs =>
        unfold matchAtoms at h
        by_cases hp : p c = true
        · simp only [hp, if_true] at h
          obtain ⟨cs1, u1, hs1, hall, hk1⟩ := greedy_sound p _ cs (acc ++ [c]) r h
          obtain ⟨t, u, hs, hm, hk⟩ := ih k (acc ++ [c] ++ cs1) u1 hk1
          refine ⟨c :: cs1 ++ t, u, by simp [hs1, hs], ⟨c :: cs1, t, rfl, by simp, ?_, hm⟩,
            by simpa using hk⟩
          intro d hd
          rcases List.mem_cons.mp hd with rfl | hd
          · exact hp
          · exact hall d hd
        · simp [hp] at h

theorem matchAtoms_complete {R : Type} (atoms : List Atom)
    (k : List Char → List Char → Option R) (acc t u : List Char)
    (hm : AtomsMatch atoms t) (h : (k (acc ++ t) u).isSome = true) :
    (matchAtoms atoms k acc (t ++ u)).isSome = true := by
  induction atoms generalizing k acc t with
  | nil =>
    have ht : t = [] := hm
    subst ht
    simpa [matchAtoms] using h
  | cons a rest ih =>
    cases a with
    | one p =>
      obtain ⟨c, t1, rfl, hp, hm1⟩ := hm
      rw [List.cons_append]
      unfold matchAtoms
      simp only [hp, if_true]
      exact ih k (acc ++ [c]) t1 hm1 (by simpa using h)
    | opt p =>
      have htake : ∀ c t1, p c = true → AtomsMatch rest t1 →
          (k (acc ++ c :: t1) u).isSome = true →
          (matchAtoms (.opt p :: rest) k acc (c :: t1 ++ u)).isSome = true := by
        intro c t1 hp hm1 hk
        have hrec := ih k (acc ++ [c]) t1 hm1 (by simpa using hk)
        rw [List.cons_append]
        unfold matchAtoms
        simp only [hp, if_true]
        cases hg : matchAtoms rest k (acc ++ [c]) (t1 ++ u) with
        | some r1 => rfl
        | none =>
          rw [hg] at hrec
          cases hrec
      rcases hm with hm1 | ⟨c, t1, rfl, hp, hm1⟩
      · have hrec := ih k acc t hm1 h
        cases hs : t ++ u with
        | nil =>
          rw [hs] at hrec
          unfold matchAtoms
          exact hrec
        | cons c cs =>
          rw [hs] at hrec
          unfold matchAtoms
          by_cases hp : p c = true
          · simp only [hp, if_true]
            cases hg : matchAtoms rest k (acc ++ [c]) cs with
            | some r1 => rfl
            | none => exact hrec
          · simp only [hp]
            exact hrec
      · exact htake c t1 hp hm1 h
    | plus p =>
      obtain ⟨cs, t1, rfl, hne, hall, hm1⟩ := hm
      cases cs with
      | nil => exact absurd rfl hne
      | cons c cs1 =>
        have hp : p c = true := hall c (List.mem_cons_self _ _)
        simp only [List.cons_append, List.append_assoc]
        unfold matchAtoms
        simp only [hp, if_true]
        apply greedy_complete p _ cs1 (t1 ++ u) (acc ++ [c])
          (fun d hd => hall d (List.mem_cons_of_mem _ hd))
        exact ih k (acc ++ [c] ++ cs1) t1 hm1 (by simpa using h)

end regexp

namespace regexp

theorem matchHere_sound (re : Regexp) (s whole g : List Char)
    (h : matchHere re s = some (whole, g)) : ∃ b, s = whole ++ b ∧ Matches re whole g := by
  unfold matchHere at h
  obtain ⟨t1, u1, hs1, hm1, h1⟩ := matchAtoms_sound _ _ _ _ _ h
  obtain ⟨g1, u2, hs2, hm2, h2⟩ := matchAtoms_sound _ _ _ _ _ h1
  obtain ⟨t3, b, hs3, hm3, h3⟩ := matchAtoms_sound _ _ _ _ _ h2
  simp only [List.nil_append, Option.some.injEq, Prod.mk.injEq] at h3
  obtain ⟨hw, hg⟩ := h3
  subst hg
  exact ⟨b, by simp [hs1, hs2, hs3, ← hw], t1, t3, hw.symm, hm1, hm2, hm3⟩

theorem matchHere_complete (re : Regexp) (whole g b : List Char) (hm : Matches re whole g) :
    (matchHere re (whole ++ b)).isSome = true := by
  obtain ⟨t1, t3, rfl, hm1, hm2, hm3⟩ := hm
  unfold matchHere
  have e : t1 ++ g ++ t3 ++ b = t1 ++ (g ++ (t3 ++ b)) := by simp
  rw [e]
  apply matchAtoms_complete _ _ _ _ _ hm1
  simp only [List.nil_append]
  apply matchAtoms_complete _ _ _ _ _ hm2
  simp only [List.nil_append]
  apply matchAtoms_complete _ _ _ _ _ hm3
  rfl

theorem find_none (re : Regexp) (s : List Char) (h : find re s = none)
    (a whole g b : List Char) (hs : s = a ++ whole ++ b) : ¬ Matches re whole g := by
  induction s generalizing a with
  | nil =>
    intro hm
    have ha : a = [] ∧ whole = [] ∧ b = [] := by
      have := hs.symm
      simp only [List.append_eq_nil] at this
      exact ⟨this.1.1, this.1.2, this.2⟩
    obtain ⟨_, rfl, rfl⟩ := ha
    have hc := matchHere_complete re [] g [] hm
    unfold find at h
    simp only [List.append_nil] at hc
    rw [h] at hc
    cases hc
  | cons c cs ih =>
    unfold find at h
    cases hh : matchHere re (c :: cs) with
    | some r =>
      rw [hh] at h
      cases h
    | none =>
      rw [hh] at h
      simp only at h
      cases a with
      | nil =>
        intro hm
        have hc := matchHere_complete re whole g b hm
        simp only [List.nil_append] at hs
        rw [← hs, hh] at hc
        cases hc
      | cons d a1 =>
        simp only [List.cons_append, List.cons.injEq] at hs
        exact ih h a1 hs.2

theorem find_sound (re : Regexp) (s whole g : List Char) (h : find re s = some (whole, g)) :
    ∃ a b, s = a ++ whole ++ b ∧ Matches re whole g ∧
      ∀ a1 w1 g1 b1, s = a1 ++ w1 ++ b1 → Matches re w1 g1 → a.length ≤ a1.length := by
  induction s with
  | nil =>
    unfold find at h
    obtain ⟨b, hs, hm⟩ := matchHere_sound re [] whole g h
    exact ⟨[], b, by simpa using hs, hm, fun _ _ _ _ _ _ => Nat.zero_le _⟩
  | cons c cs ih =>
    unfold find at h
    cases hh : matchHere re (c :: cs) with
    | some r =>
      rw [hh] at h
      simp only [Option.some.injEq] at h
      subst h
      obtain ⟨b, hs, hm⟩ := matchHere_sound re (c :: cs) whole g hh
      exact ⟨[], b, by simpa using hs, hm, fun _ _ _ _ _ _ => Nat.zero_le _⟩
    | none =>
      rw [hh] at h
      simp only at h
      obtain ⟨a, b, hs, hm, hleft⟩ := ih h
      refine ⟨c :: a, b, by simp [hs], hm, ?_⟩
      intro a1 w1 g1 b1 hs1 hm1
      cases a1 with
      | nil =>
        have hc := matchHere_complete re w1 g1 b1 hm1
        simp only [List.nil_append] at hs1
        rw [← hs1, hh] at hc
        cases hc
      | cons d a2 =>
        simp only [List.cons_append, List.cons.injEq] at hs1
        have := hleft a2 w1 g1 b1 hs1.2 hm1
        simp only [List.length_cons]
        omega

theorem atoms_chars (q : Char → Prop) (atoms : List Atom) (t : List Char)
    (hm : AtomsMatch atoms t) (hq : ∀ a ∈ atoms, ∀ c, a.cls c = true → q c) :
    ∀ c ∈ t, q c := by
  induction atoms generalizing t with
  | nil =>
    have ht : t = [] := hm
    subst ht
    simp
  | cons a rest ih =>
    have hrest : ∀ b ∈ rest, ∀ c, b.cls c = true → q c :=
      fun b hb => hq b (List.mem_cons_of_mem _ hb)
    have hhead := hq a (List.mem_cons_self _ _)
    cases a with
    | one p =>
      obtain ⟨c, u, rfl, hp, hm1⟩ := hm
      intro d hd
      rcases List.mem_cons.mp hd with rfl | hd
      · exact hhead _ hp
      · exact ih u hm1 hrest d hd
    | opt p =>
      rcases hm with hm1 | ⟨c, u, rfl, hp, hm1⟩
      · exact ih t hm1 hrest
      · intro d hd
        rcases List.mem_cons.mp hd with rfl | hd
        · exact hhead _ hp
        · exact ih u hm1 hrest d hd
    | plus p =>
      obtain ⟨cs, u, rfl, _, hall, hm1⟩ := hm
      intro d hd
      rcases List.mem_append.mp hd with hd | hd
      · exact hhead _ (hall d hd)
      · exact ih u hm1 hrest d hd

theorem group_chars (re : Regexp) (hre : re ∈ versionPatterns) (g : List Char)
    (hm : AtomsMatch re.group g) : g ≠ [] ∧ ∀ c ∈ g, c.isDigit = true ∨ c = '.' := by
  have hshape : (re.group = threeNumbers ∨
      re.group = [.plus digit, .one (· == '.'), .plus digit]) := by
    simp only [versionPatterns, List.mem_cons, List.mem_singleton, List.not_mem_nil,
      or_false] at hre
    rcases hre with rfl | rfl | rfl | rfl | rfl <;> simp [nodePattern, semverPattern,
      uvPattern, majorMinorPattern, caddyPattern]
  constructor
  · rcases hshape with hsh | hsh <;> rw [hsh] at hm
    · obtain ⟨cs, u, rfl, hne, _, _⟩ := hm
      simp [hne]
    · obtain ⟨cs, u, rfl, hne, _, _⟩ := hm
      simp [hne]
  · refine atoms_chars (fun c => c.isDigit = true ∨ c = '.') re.group g hm ?_
    intro a ha c hc
    rcases hshape with hsh | hsh <;> rw [hsh] at ha <;>
      simp only [threeNumbers, List.mem_cons, List.mem_singleton, List.not_mem_nil,
        or_false] at ha
    · rcases ha with rfl | rfl | rfl | rfl | rfl <;> simp_all [Atom.cls, digit]
    · rcases ha with rfl | rfl | rfl <;> simp_all [Atom.cls, digit]

end regexp

namespace regexp

theorem matchAtoms_append {R : Type} (l1 l2 : List Atom)
    (k : List Char → List Char → Option R) :
    matchAtoms (l1 ++ l2) k = matchAtoms l1 (matchAtoms l2 k) := by
  induction l1 with
  | nil =>
    funext acc s
    simp [matchAtoms]
  | cons a rest ih =>
    have ih2 : matchAtoms (rest.append l2) k = matchAtoms rest (matchAtoms l2 k) := ih
    funext acc s
    cases a <;> simp only [List.cons_append, matchAtoms, ih2]

theorem AtomsMatch_append (l1 l2 : List Atom) (t : List Char) :
    AtomsMatch (l1 ++ l2) t ↔
      ∃ t1 t2, t = t1 ++ t2 ∧ AtomsMatch l1 t1 ∧ AtomsMatch l2 t2 := by
  induction l1 generalizing t with
  | nil =>
    constructor
    · intro h
      exact ⟨[], t, rfl, rfl, h⟩
    · rintro ⟨t1, t2, rfl, h1, h2⟩
      have : t1 = [] := h1
      subst this
      exact h2
  | cons a rest ih =>
    cases a with
    | one p =>
      constructor
      · rintro ⟨c, u, rfl, hp, hm⟩
        obtain ⟨t1, t2, rfl, h1, h2⟩ := (ih u).mp hm
        exact ⟨c :: t1, t2, rfl, ⟨c, t1, rfl, hp, h1⟩, h2⟩
      · rintro ⟨t1, t2, rfl, ⟨c, u, rfl, hp, h1⟩, h2⟩
        exact ⟨c, u ++ t2, rfl, hp, (ih _).mpr ⟨u, t2, rfl, h1, h2⟩⟩
    | opt p =>
      constructor
      · rintro (hm | ⟨c, u, rfl, hp, hm⟩)
        · obtain ⟨t1, t2, rfl, h1, h2⟩ := (ih t).mp hm
          exact ⟨t1, t2, rfl, Or.inl h1, h2⟩
        · obtain ⟨t1, t2, rfl, h1, h2⟩ := (ih u).mp hm
          exact ⟨c :: t1, t2, rfl, Or.inr ⟨c, t1, rfl, hp, h1⟩, h2⟩
      · rintro ⟨t1, t2, rfl, (h1 | ⟨c, u, rfl, hp, h1⟩), h2⟩
        · exact Or.inl ((ih _).mpr ⟨t1, t2, rfl, h1, h2⟩)
        · exact Or.inr ⟨c, u ++ t2, rfl, hp, (ih _).mpr ⟨u, t2, rfl, h1, h2⟩⟩
    | plus p =>
      constructor
      · rintro ⟨cs, u, rfl, hne, hall, hm⟩
        obtain ⟨t1, t2, rfl, h1, h2⟩ := (ih u).mp hm
        exact ⟨cs ++ t1, t2, by simp, ⟨cs, t1, rfl, hne, hall, h1⟩, h2⟩
      · rintro ⟨t1, t2, rfl, ⟨cs, u, rfl, hne, hall, h1⟩, h2⟩
        exact ⟨cs, u ++ t2, by simp, hne, hall, (ih _).mpr ⟨u, t2, rfl, h1, h2⟩⟩

theorem greedy_total {R : Type} (p : Char → Bool) (k : List Char → List Char → Option R)
    (hk : ∀ a s, (k a s).isSome = true) (s acc : List Char) :
    greedy p k acc s = k (acc ++ s.takeWhile p) (s.dropWhile p) := by
  induction s generalizing acc with
  | nil => simp [greedy]
  | cons c cs ih =>
    unfold greedy
    by_cases hp : p c = true
    · simp only [hp, if_true, List.takeWhile_cons_of_pos, List.dropWhile_cons_of_pos]
      rw [ih (acc ++ [c])]
      have e : acc ++ [c] ++ cs.takeWhile p = acc ++ c :: cs.takeWhile p := by simp
      rw [e]
      have hsome := hk (acc ++ c :: cs.takeWhile p) (cs.dropWhile p)
      cases hres : k (acc ++ c :: cs.takeWhile p) (cs.dropWhile p) with
      | none =>
        rw [hres] at hsome
        cases hsome
      | some r => rfl
    · have hp2 : ¬ (p c = true) := hp
      simp [hp2, List.takeWhile_cons, List.dropWhile_cons]

theorem dropWhile_head (p : Char → Bool) (s : List Char) (c : Char) (r : List Char)
    (h : s.dropWhile p = c :: r) : p c = false := by
  have hne : s.dropWhile p ≠ [] := by
    rw [h]
    simp
  have := List.head_dropWhile_not p s hne
  simpa [h] using this

theorem plus_last_sound {R : Type} (p : Char → Bool)
    (k : List Char → List Char → Option R) (hk : ∀ a s, (k a s).isSome = true)
    (acc s : List Char) (r : R) (h : matchAtoms [.plus p] k acc s = some r) :
    ∃ t u, s = t ++ u ∧ AtomsMatch [.plus p] t ∧ k (acc ++ t) u = some r ∧
      ∀ c v, u = c :: v → p c = false := by
  cases s with
  | nil => simp [matchAtoms] at h
  | cons c cs =>
    unfold matchAtoms at h
    by_cases hp : p c = true
    · simp only [hp, if_true] at h
      have hk2 : ∀ a s, (matchAtoms [] k a s).isSome = true := by
        intro a s
        simpa [matchAtoms] using hk a s
      rw [greedy_total p _ hk2] at h
      refine ⟨c :: cs.takeWhile p, cs.dropWhile p, by simp, ?_, by simpa [matchAtoms] using h,
        fun d v hd => dropWhile_head p cs d v hd⟩
      refine ⟨c :: cs.takeWhile p, [], by simp, by simp, ?_, rfl⟩
      intro d hd
      rcases List.mem_cons.mp hd with rfl | hd
      · exact hp
      · exact (List.mem_takeWhile_imp hd)
    · simp [hp] at h

theorem ends_plus_sound {R : Type} (body : List Atom) (p : Char → Bool)
    (k : List Char → List Char → Option R) (hk : ∀ a s, (k a s).isSome = true)
    (acc s : List Char) (r : R) (h : matchAtoms (body ++ [.plus p]) k acc s = some r) :
    ∃ t u, s = t ++ u ∧ AtomsMatch (body ++ [.plus p]) t ∧ k (acc ++ t) u = some r ∧
      ∀ c v, u = c :: v → p c = false := by
  rw [matchAtoms_append] at h
  obtain ⟨t0, u0, hs0, hm0, h0⟩ := matchAtoms_sound _ _ _ _ _ h
  obtain ⟨t1, u, hs1, hm1, h1, hstop⟩ := plus_last_sound p k hk _ _ _ h0
  exact ⟨t0 ++ t1, u, by simp [hs0, hs1], (AtomsMatch_append _ _ _).mpr ⟨t0, t1, rfl, hm0, hm1⟩,
    by simpa using h1, hstop⟩

end regexp

namespace regexp

theorem first_head (atoms : List Atom) (stop : Char → Bool) (t u : List Char)
    (hm : AtomsMatch atoms t) (hu : ∃ c v, u = c :: v ∧ stop c = true) :
    ∃ c v, t ++ u = c :: v ∧ first atoms stop c = true := by
  induction atoms generalizing t with
  | nil =>
    have ht : t = [] := hm
    subst ht
    simpa [first] using hu
  | cons a rest ih =>
    cases a with
    | one p =>
      obtain ⟨c, w, rfl, hp, _⟩ := hm
      exact ⟨c, w ++ u, rfl, hp⟩
    | opt p =>
      rcases hm with hm1 | ⟨c, w, rfl, hp, _⟩
      · obtain ⟨c, v, hcv, hf⟩ := ih t hm1
        exact ⟨c, v, hcv, by simp [first, hf]⟩
      · exact ⟨c, w ++ u, rfl, by simp [first, hp]⟩
    | plus p =>
      obtain ⟨cs, w, rfl, hne, hall, _⟩ := hm
      cases cs with
      | nil => exact absurd rfl hne
      | cons c cs1 => exact ⟨c, cs1 ++ w ++ u, by simp, hall c (List.mem_cons_self _ _)⟩

theorem run_prefix (p : Char → Bool) (cs y ds z : List Char) (h : cs ++ y = ds ++ z)
    (hds : ∀ c ∈ ds, p c = true) (hy : ∀ c v, y = c :: v → p c = false) : ds <+: cs := by
  rcases List.append_eq_append_iff.mp h with ⟨a, hds2, hy2⟩ | ⟨a, hcs, _⟩
  · cases a with
    | nil => exact ⟨[], by simp [hds2]⟩
    | cons c a1 =>
      have h1 : p c = true := hds c (by simp [hds2])
      have h2 : p c = false := hy c (a1 ++ z) (by simpa using hy2)
      rw [h1] at h2
      cases h2
  · exact ⟨a, hcs.symm⟩

theorem run_unique (p : Char → Bool) (cs y ds z : List Char) (h : cs ++ y = ds ++ z)
    (hcs : ∀ c ∈ cs, p c = true) (hds : ∀ c ∈ ds, p c = true)
    (hy : ∀ c v, y = c :: v → p c = false) (hz : ∀ c v, z = c :: v → p c = false) :
    cs = ds ∧ y = z := by
  have h1 := run_prefix p cs y ds z h hds hy
  have h2 := run_prefix p ds z cs y h.symm hcs hz
  have hlen : cs.length = ds.length := Nat.le_antisymm h2.length_le h1.length_le
  have heq : cs = ds := (List.append_inj h hlen).1
  exact ⟨heq, (List.append_inj h hlen).2⟩

theorem separated_unique (atoms : List Atom) (stop : Char → Bool)
    (hsep : Separated atoms stop) (t u t2 u2 : List Char)
    (hm : AtomsMatch atoms t) (hm2 : AtomsMatch atoms t2) (h : t ++ u = t2 ++ u2)
    (hu : ∃ c v, u = c :: v ∧ stop c = true) (hu2 : ∃ c v, u2 = c :: v ∧ stop c = true) :
    t = t2 ∧ u = u2 := by
  induction atoms generalizing t t2 with
  | nil =>
    have ht : t = [] := hm
    have ht2 : t2 = [] := hm2
    subst ht
    subst ht2
    exact ⟨rfl, by simpa using h⟩
  | cons a rest ih =>
    cases a with
    | one p =>
      obtain ⟨c, w, rfl, _, hw⟩ := hm
      obtain ⟨c2, w2, rfl, _, hw2⟩ := hm2
      simp only [List.cons_append, List.cons.injEq] at h
      obtain ⟨he, hrest⟩ := ih hsep w w2 hw hw2 h.2
      exact ⟨by rw [h.1, he], hrest⟩
    | opt p =>
      obtain ⟨hdis, hsep2⟩ := hsep
      rcases hm with hw | ⟨c, w, rfl, hp, hw⟩ <;> rcases hm2 with hw2 | ⟨c2, w2, rfl, hp2, hw2⟩
      · exact ih hsep2 t t2 hw hw2 h
      · obtain ⟨d, v, hdv, hf⟩ := first_head rest stop t u hw hu
        rw [h] at hdv
        simp only [List.cons_append, List.cons.injEq] at hdv
        rw [← hdv.1, hdis c2 hp2] at hf
        cases hf
      · obtain ⟨d, v, hdv, hf⟩ := first_head rest stop t2 u2 hw2 hu2
        rw [← h] at hdv
        simp only [List.cons_append, List.cons.injEq] at hdv
        rw [← hdv.1, hdis c hp] at hf
        cases hf
      · simp only [List.cons_append, List.cons.injEq] at h
        obtain ⟨he, hrest⟩ := ih hsep2 w w2 hw hw2 h.2
        exact ⟨by rw [h.1, he], hrest⟩
    | plus p =>
      obtain ⟨hdis, hsep2⟩ := hsep
      obtain ⟨cs, w, rfl, _, hall, hw⟩ := hm
      obtain ⟨ds, w2, rfl, _, hall2, hw2⟩ := hm2
      have hstop : ∀ x (hx : AtomsMatch rest x) y (hy : ∃ c v, y = c :: v ∧ stop c = true),
          ∀ c v, x ++ y = c :: v → p c = false := by
        intro x hx y hy c v hcv
        obtain ⟨d, v2, hdv, hf⟩ := first_head rest stop x y hx hy
        rw [hcv] at hdv
        simp only [List.cons.injEq] at hdv
        rw [← hdv.1] at hf
        cases hpc : p c with
        | false => rfl
        | true =>
          rw [hdis c hpc] at hf
          cases hf
      simp only [List.append_assoc] at h
      obtain ⟨he, hrest⟩ := run_unique p cs (w ++ u) ds (w2 ++ u2) h hall hall2
        (hstop w hw u hu) (hstop w2 hw2 u2 hu2)
      obtain ⟨he2, hrest2⟩ := ih hsep2 w w2 hw hw2 hrest
      exact ⟨by rw [he, he2], hrest2⟩

theorem find_here (re : Regexp) (s : List Char) (r : List Char × List Char)
    (h : find re s = some r) :
    ∃ a rest, s = a ++ rest ∧ matchHere re rest = some r ∧
      ∀ a1 w1 g1 b1, s = a1 ++ w1 ++ b1 → Matches re w1 g1 → a.length ≤ a1.length := by
  induction s with
  | nil =>
    unfold find at h
    exact ⟨[], [], rfl, h, fun _ _ _ _ _ _ => Nat.zero_le _⟩
  | cons c cs ih =>
    unfold find at h
    cases hh : matchHere re (c :: cs) with
    | some r1 =>
      rw [hh] at h
      simp only [Option.some.injEq] at h
      subst h
      exact ⟨[], c :: cs, rfl, hh, fun _ _ _ _ _ _ => Nat.zero_le _⟩
    | none =>
      rw [hh] at h
      simp only at h
      obtain ⟨a, rest, hs, hm, hleft⟩ := ih h
      refine ⟨c :: a, rest, by simp [hs], hm, ?_⟩
      intro a1 w1 g1 b1 hs1 hm1
      cases a1 with
      | nil =>
        have hc := matchHere_complete re w1 g1 b1 hm1
        simp only [List.nil_append] at hs1
        rw [← hs1, hh] at hc
        cases hc
      | cons d a2 =>
        simp only [List.cons_append, List.cons.injEq] at hs1
        have := hleft a2 w1 g1 b1 hs1.2 hm1
        simp only [List.length_cons]
        omega

end regexp

namespace regexp

theorem matchHere_longest (re : Regexp) (body : List Atom) (p : Char → Bool)
    (hpost : re.post = []) (hgroup : re.group = body ++ [.plus p])
    (hsep1 : Separated re.pre (first body p)) (hsep2 : Separated body p)
    (s whole g : List Char) (h : matchHere re s = some (whole, g)) :
    ∃ b, s = whole ++ b ∧ Matches re whole g ∧
      ∀ w1 g1 b1, s = w1 ++ b1 → Matches re w1 g1 → w1 <+: whole ∧ g1 <+: g := by
  unfold matchHere at h
  rw [hpost, hgroup] at h
  obtain ⟨t1, u1, hs1, hm1, h1⟩ := matchAtoms_sound _ _ _ _ _ h
  have hk : ∀ (a s2 : List Char),
      (matchAtoms ([] : List Atom)
        (fun t3 _ => some (([] ++ t1) ++ a ++ t3, a)) [] s2).isSome = true := by
    intro a s2
    simp [matchAtoms]
  obtain ⟨g0, b, hs2, hm2, h2, hstop⟩ := ends_plus_sound body p _ hk _ _ _ h1
  simp only [matchAtoms, List.nil_append, List.append_nil, Option.some.injEq,
    Prod.mk.injEq] at h2
  obtain ⟨hw, hg⟩ := h2
  subst hg
  subst hw
  obtain ⟨gb, run, hg0, hmb, hrun⟩ := (AtomsMatch_append _ _ _).mp hm2
  obtain ⟨cs, e, hrune, hne, hall, he⟩ := hrun
  have he2 : e = [] := he
  subst he2
  simp only [List.append_nil] at hrune
  subst hrune
  have hmatch : Matches re (t1 ++ g0) g0 :=
    ⟨t1, [], by simp, hm1, by rw [hgroup]; exact hm2, by rw [hpost]; rfl⟩
  refine ⟨b, by simp [hs1, hs2], hmatch, ?_⟩
  intro w1 g1 b1 hsw hmw
  obtain ⟨t2, t3, hw1, hp2, hg2, hpost2⟩ := hmw
  rw [hpost] at hpost2
  have ht3 : t3 = [] := hpost2
  subst ht3
  rw [hgroup] at hg2
  obtain ⟨gb2, run2, hg1, hmb2, hrun2⟩ := (AtomsMatch_append _ _ _).mp hg2
  obtain ⟨ds, e2, hrune2, hne2, hall2, he3⟩ := hrun2
  have he4 : e2 = [] := he3
  subst he4
  simp only [List.append_nil] at hrune2
  subst hrune2
  have hstart : ∀ (xs y : List Char), xs ≠ [] → (∀ c ∈ xs, p c = true) →
      ∃ c v, xs ++ y = c :: v ∧ p c = true := by
    intro xs y hx hax
    cases xs with
    | nil => exact absurd rfl hx
    | cons c v => exact ⟨c, v ++ y, rfl, hax c (List.mem_cons_self _ _)⟩
  subst hg0
  subst hg1
  have hq : ∃ c v, gb ++ run ++ b = c :: v ∧ first body p c = true := by
    have := first_head body p gb (run ++ b) hmb (hstart run b hne hall)
    simpa using this
  have hq2 : ∃ c v, gb2 ++ run2 ++ b1 = c :: v ∧ first body p c = true := by
    have := first_head body p gb2 (run2 ++ b1) hmb2 (hstart run2 b1 hne2 hall2)
    simpa using this
  have heq : t1 ++ (gb ++ run ++ b) = t2 ++ (gb2 ++ run2 ++ b1) := by
    have : s = t1 ++ (gb ++ run ++ b) := by simp [hs1, hs2]
    rw [← this, hsw, hw1]
    simp
  obtain ⟨ht, hrest⟩ := separated_unique re.pre _ hsep1 t1 _ t2 _ hm1 hp2 heq hq hq2
  subst ht
  have heq2 : gb ++ (run ++ b) = gb2 ++ (run2 ++ b1) := by
    simpa using hrest
  obtain ⟨hb, hrest2⟩ := separated_unique body p hsep2 gb _ gb2 _ hmb hmb2 heq2
    (hstart run b hne hall) (hstart run2 b1 hne2 hall2)
  subst hb
  have hpre : run2 <+: run := run_prefix p run b run2 b1 hrest2 hall2 hstop
  have hgpre : gb ++ run2 <+: gb ++ run := (List.prefix_append_right_inj gb).mpr hpre
  refine ⟨?_, hgpre⟩
  rw [hw1]
  simp only [List.append_nil]
  exact (List.prefix_append_right_inj t1).mpr hgpre

theorem digit_not_dot (c : Char) (h : digit c = true) : (c == '.') = false := by
  cases hc : c == '.' with
  | false => rfl
  | true =>
    have : c = '.' := by simpa using hc
    subst this
    exact absurd h (by decide)

theorem v_not_digit (c : Char) (h : (c == 'v') = true) : digit c = false := by
  have : c = 'v' := by simpa using h
  subst this
  decide

theorem space_not_digit (c : Char) (h : space c = true) : digit c = false := by
  simp only [space, Bool.or_eq_true, beq_iff_eq] at h
  rcases h with (((rfl | rfl) | rfl) | rfl) | rfl <;> decide

theorem versionPatterns_shape (re : Regexp) (hre : re ∈ versionPatterns) :
    ∃ body, re.post = [] ∧ re.group = body ++ [.plus digit] ∧
      Separated re.pre (first body digit) ∧ Separated body digit := by
  simp only [versionPatterns, List.mem_cons, List.mem_singleton, List.not_mem_nil,
    or_false] at hre
  have h3 : Separated [.plus digit, .one (· == '.'), .plus digit, .one (· == '.')] digit :=
    ⟨fun c hc => digit_not_dot c hc, ⟨fun c hc => digit_not_dot c hc, trivial⟩⟩
  have h2 : Separated [.plus digit, .one (· == '.')] digit :=
    ⟨fun c hc => digit_not_dot c hc, trivial⟩
  rcases hre with rfl | rfl | rfl | rfl | rfl
  · exact ⟨[.plus digit, .one (· == '.'), .plus digit, .one (· == '.')], rfl, rfl,
      ⟨fun c hc => v_not_digit c hc, trivial⟩, h3⟩
  · exact ⟨[.plus digit, .one (· == '.'), .plus digit, .one (· == '.')], rfl, rfl,
      trivial, h3⟩
  · exact ⟨[.plus digit, .one (· == '.'), .plus digit, .one (· == '.')], rfl, rfl,
      ⟨fun c hc => space_not_digit c hc, trivial⟩, h3⟩
  · exact ⟨[.plus digit, .one (· == '.')], rfl, rfl, trivial, h2⟩
  · exact ⟨[.plus digit, .one (· == '.'), .plus digit, .one (· == '.')], rfl, rfl,
      trivial, h3⟩

end regexp

namespace regexp

theorem LeftmostGroup_unique (re : Regexp) (s g g2 : List Char)
    (h : LeftmostGroup re s g) (h2 : LeftmostGroup re s g2) : g2 = g := by
  obtain ⟨a, w, b, hs, hm, hleft, hlong⟩ := h
  obtain ⟨a2, w2, b2, hs2, hm2, hleft2, hlong2⟩ := h2
  have hlen : a.length = a2.length :=
    Nat.le_antisymm (hleft a2 w2 g2 b2 hs2 hm2) (hleft2 a w g b hs hm)
  have heq : a ++ (w ++ b) = a2 ++ (w2 ++ b2) := by
    rw [← List.append_assoc, ← List.append_assoc, ← hs, ← hs2]
  have ha : a = a2 := (List.append_inj heq hlen).1
  subst ha
  have p1 := (hlong w2 g2 b2 hs2 hm2).2
  have p2 := (hlong2 w g b hs hm).2
  exact p1.eq_of_length (Nat.le_antisymm p1.length_le p2.length_le)

theorem find_leftmost (re : Regexp) (hre : re ∈ versionPatterns) (s whole g : List Char)
    (h : find re s = some (whole, g)) : LeftmostGroup re s g := by
  obtain ⟨a, rest, hs, hhere, hleft⟩ := find_here re s (whole, g) h
  obtain ⟨body, hpost, hgroup, hsep1, hsep2⟩ := versionPatterns_shape re hre
  obtain ⟨b, hrest, hm, hlong⟩ :=
    matchHere_longest re body digit hpost hgroup hsep1 hsep2 rest whole g hhere
  refine ⟨a, whole, b, by simp [hs, hrest], hm, hleft, ?_⟩
  intro w1 g1 b1 hs1 hm1
  apply hlong w1 g1 b1 _ hm1
  have : a ++ rest = a ++ (w1 ++ b1) := by
    rw [← hs, hs1]
    simp
  exact List.append_cancel_left this

theorem match_of_find (re : Regexp) (s whole g : List Char)
    (h : find re s = some (whole, g)) :
    ∃ a w1 g1 b, s = a ++ w1 ++ b ∧ Matches re w1 g1 := by
  obtain ⟨a, b, hs, hm, _⟩ := find_sound re s whole g h
  exact ⟨a, whole, g, b, hs, hm⟩

end regexp

theorem extractVersion_eq (s : String) (re : regexp.Regexp) :
    extractVersion s re =
      match regexp.find re s.data with
      | some (_, g) => String.mk g
      | none => s := by
  unfold extractVersion regexp.FindStringSubmatch
  cases regexp.find re s.data with
  | none => rfl
  | some r => rfl

/-- C16: for each of the five version patterns and every output `s`: if no part of `s`
matches the pattern, `extractVersion` returns `s` unchanged; if some part does, it
returns the capture group of the leftmost match: the match starts at the first position
where any match starts and, the repetitions being greedy, every match starting there is
a prefix of it with a capture group that is a prefix of the one returned, so the group
is determined by `s`; it is a non-empty substring of `s` made of digits and dots only. -/
theorem extractVersion_spec (re : regexp.Regexp) (hre : re ∈ versionPatterns) (s : String) :
    ((∀ a whole g b, s.data = a ++ whole ++ b → ¬ regexp.Matches re whole g) →
      extractVersion s re = s) ∧
    ((∃ a whole g b, s.data = a ++ whole ++ b ∧ regexp.Matches re whole g) →
      ∃ g, regexp.LeftmostGroup re s.data g ∧
        (∀ g2, regexp.LeftmostGroup re s.data g2 → g2 = g) ∧
        extractVersion s re = String.mk g ∧ g <:+: s.data ∧ g ≠ [] ∧
        ∀ c ∈ g, c.isDigit = true ∨ c = '.') := by
  rw [extractVersion_eq]
  constructor
  · intro hno
    cases hf : regexp.find re s.data with
    | none => rfl
    | some r =>
      obtain ⟨a, b, hs, hm, _⟩ := regexp.find_sound re s.data r.1 r.2 hf
      exact absurd hm (hno a r.1 r.2 b hs)
  · rintro ⟨a0, w0, g0, b0, hs0, hm0⟩
    cases hf : regexp.find re s.data with
    | none => exact absurd hm0 (regexp.find_none re s.data hf a0 w0 g0 b0 hs0)
    | some r =>
      obtain ⟨whole, g⟩ := r
      have hlm := regexp.find_leftmost re hre s.data whole g hf
      have hlm2 := hlm
      obtain ⟨a, w, b, hs, hm, _, _⟩ := hlm2
      have hm2 := hm
      obtain ⟨t1, t3, hw, _, hgm, _⟩ := hm2
      have hg := regexp.group_chars re hre g hgm
      exact ⟨g, hlm, fun g2 h2 => regexp.LeftmostGroup_unique re s.data g g2 hlm h2, rfl,
        ⟨a ++ t1, t3 ++ b, by simp [hs, hw]⟩, hg.1, hg.2⟩

/-- Witness of C16: one output for each of the five patterns; in `Python 3.12.10` the
last run of digits is taken whole. -/
theorem extractVersion_spec_witness :
    (extractVersion "v22.11.0" regexp.nodePattern = "22.11.0" ∧
      ∃ g, regexp.LeftmostGroup regexp.nodePattern "v22.11.0".data g ∧
        (∀ g2, regexp.LeftmostGroup regexp.nodePattern "v22.11.0".data g2 → g2 = g) ∧
        extractVersion "v22.11.0" regexp.nodePattern = String.mk g ∧
        g <:+: "v22.11.0".data ∧ g ≠ [] ∧ ∀ c ∈ g, c.isDigit = true ∨ c = '.') ∧
    (extractVersion "Python 3.12.10" regexp.semverPattern = "3.12.10" ∧
      ∃ g, regexp.LeftmostGroup regexp.semverPattern "Python 3.12.10".data g ∧
        (∀ g2, regexp.LeftmostGroup regexp.semverPattern "Python 3.12.10".data g2 → g2 = g) ∧
        extractVersion "Python 3.12.10" regexp.semverPattern = String.mk g ∧
        g <:+: "Python 3.12.10".data ∧ g ≠ [] ∧ ∀ c ∈ g, c.isDigit = true ∨ c = '.') ∧
    (extractVersion "uv 0.4.30 (abc)" regexp.uvPattern = "0.4.30" ∧
      ∃ g, regexp.LeftmostGroup regexp.uvPattern "uv 0.4.30 (abc)".data g ∧
        (∀ g2, regexp.LeftmostGroup regexp.uvPattern "uv 0.4.30 (abc)".data g2 → g2 = g) ∧
        extractVersion "uv 0.4.30 (abc)" regexp.uvPattern = String.mk g ∧
        g <:+: "uv 0.4.30 (abc)".data ∧ g ≠ [] ∧ ∀ c ∈ g, c.isDigit = true ∨ c = '.') ∧
    (extractVersion "psql (PostgreSQL) 15.4" regexp.majorMinorPattern = "15.4" ∧
      ∃ g, regexp.LeftmostGroup regexp.majorMinorPattern "psql (PostgreSQL) 15.4".data g ∧
        (∀ g2, regexp.LeftmostGroup regexp.majorMinorPattern
          "psql (PostgreSQL) 15.4".data g2 → g2 = g) ∧
        extractVersion "psql (PostgreSQL) 15.4" regexp.majorMinorPattern = String.mk g ∧
        g <:+: "psql (PostgreSQL) 15.4".data ∧ g ≠ [] ∧
        ∀ c ∈ g, c.isDigit = true ∨ c = '.') ∧
    (extractVersion "v2.7.6 h1:x" regexp.caddyPattern = "2.7.6" ∧
      ∃ g, regexp.LeftmostGroup regexp.caddyPattern "v2.7.6 h1:x".data g ∧
        (∀ g2, regexp.LeftmostGroup regexp.caddyPattern "v2.7.6 h1:x".data g2 → g2 = g) ∧
        extractVersion "v2.7.6 h1:x" regexp.caddyPattern = String.mk g ∧
        g <:+: "v2.7.6 h1:x".data ∧ g ≠ [] ∧ ∀ c ∈ g, c.isDigit = true ∨ c = '.') ∧
    (extractVersion "no version here" regexp.semverPattern = "no version here") :=
  ⟨⟨by decide,
      (extractVersion_spec regexp.nodePattern (by simp [versionPatterns]) "v22.11.0").2
        (regexp.match_of_find _ _ "v22.11.0".data "22.11.0".data (by decide))⟩,
    ⟨by decide,
      (extractVersion_spec regexp.semverPattern (by simp [versionPatterns])
        "Python 3.12.10").2
        (regexp.match_of_find _ _ "3.12.10".data "3.12.10".data (by decide))⟩,
    ⟨by decide,
      (extractVersion_spec regexp.uvPattern (by simp [versionPatterns]) "uv 0.4.30 (abc)").2
        (regexp.match_of_find _ _ "uv 0.4.30".data "0.4.30".data (by decide))⟩,
    ⟨by decide,
      (extractVersion_spec regexp.majorMinorPattern (by simp [versionPatterns])
        "psql (PostgreSQL) 15.4").2
        (regexp.match_of_find _ _ "15.4".data "15.4".data (by decide))⟩,
    ⟨by decide,
      (extractVersion_spec regexp.caddyPattern (by simp [versionPatterns]) "v2.7.6 h1:x").2
        (regexp.match_of_find _ _ "v2.7.6".data "2.7.6".data (by decide))⟩,
    (extractVersion_spec regexp.semverPattern (by simp [versionPatterns])
      "no version here").1
      (fun a whole g b hs => regexp.find_none regexp.semverPattern "no version here".data
        (by decide) a whole g b hs)⟩

/-! ## Lemmas on the probes -/

theorem trimChars_idem (p : Char → Bool) (cs : List Char) :
    strings.trimChars p (strings.trimChars p cs) = strings.trimChars p cs := by
  have hdef : ∀ l, strings.trimChars p l = (l.dropWhile p).rdropWhile p := fun _ => rfl
  rw [hdef (strings.trimChars p cs)]
  have hdrop : (strings.trimChars p cs).dropWhile p = strings.trimChars p cs := by
    cases hr : strings.trimChars p cs with
    | nil => rfl
    | cons x r =>
      have hpre : strings.trimChars p cs <+: cs.dropWhile p := by
        rw [hdef]
        exact List.rdropWhile_prefix p _
      rw [hr] at hpre
      obtain ⟨t, ht⟩ := hpre
      have hne : cs.dropWhile p ≠ [] := by
        rw [← ht]
        simp
      have hhead := List.head_dropWhile_not p cs hne
      have hx : (cs.dropWhile p).head hne = x := by
        simp [← ht]
      rw [hx] at hhead
      rw [List.dropWhile_cons_of_neg (by simp [hhead])]
  rw [hdrop, hdef, List.rdropWhile_idempotent]

theorem TrimSpace_idem (s : String) :
    strings.TrimSpace (strings.TrimSpace s) = strings.TrimSpace s := by
  unfold strings.TrimSpace
  rw [trimChars_idem]

theorem runCmd_trimmed (m : Machine) (name : String) (arg : List String) :
    strings.TrimSpace (runCmd m name arg).2 = (runCmd m name arg).2 := by
  unfold runCmd
  exact TrimSpace_idem _

theorem String_mk_ne_empty (g : List Char) (hg : g ≠ []) : String.mk g ≠ "" := by
  intro h
  apply hg
  have := congrArg String.data h
  simpa using this

theorem extractVersion_ne_empty (re : regexp.Regexp) (hre : re ∈ versionPatterns)
    (s : String) (hs : s ≠ "") : extractVersion s re ≠ "" := by
  rw [extractVersion_eq]
  cases hf : regexp.find re s.data with
  | none => exact hs
  | some r =>
    obtain ⟨whole, g⟩ := r
    obtain ⟨a, b, _, hm, _⟩ := regexp.find_sound re s.data whole g hf
    obtain ⟨t1, t3, _, _, hgm, _⟩ := hm
    exact String_mk_ne_empty g (regexp.group_chars re hre g hgm).1

theorem ProbeOutcome_cons (item : checkItem) (r0 : Bool × String)
    (runs : List (Bool × String)) (hfail : ¬ (r0.1 = true)) (h : ProbeOutcome item runs) :
    ProbeOutcome item (r0 :: runs) := by
  rcases h with ⟨h, hall⟩ | ⟨hi, r, hr, hok, hv⟩
  · refine Or.inl ⟨h, ?_⟩
    intro r hr
    rcases List.mem_cons.mp hr with rfl | hr
    · simpa using hfail
    · exact hall r hr
  · exact Or.inr ⟨hi, r, List.mem_cons_of_mem _ hr, hok, hv⟩

theorem ProbeOutcome_nil :
    ProbeOutcome { Installed := false, Version := "", Path := "", MeetsRequirement := false }
      [] :=
  Or.inl ⟨rfl, fun _ hr => absurd hr (List.not_mem_nil _)⟩

theorem ProbeOutcome_single (r0 : Bool × String) (hfail : ¬ (r0.1 = true)) :
    ProbeOutcome { Installed := false, Version := "", Path := "", MeetsRequirement := false }
      [r0] :=
  ProbeOutcome_cons _ r0 [] hfail ProbeOutcome_nil

theorem checkPaths_outcome (m : Machine) (re : regexp.Regexp) (hre : re ∈ versionPatterns)
    (ps : List String) :
    ProbeOutcome (checkPaths m re ps)
      ((ps.filter m.Stat).map (fun p => runCmdEx m p ["--version"])) := by
  induction ps with
  | nil => exact ProbeOutcome_nil
  | cons p rest ih =>
    unfold checkPaths
    by_cases hst : m.Stat p = true
    · have hst2 : ¬ (m.Stat p = false) := by simp [hst]
      rw [if_neg hst2, List.filter_cons_of_pos hst, List.map_cons]
      by_cases hok : (runCmdEx m p ["--version"]).1 = true
      · rw [if_pos hok]
        exact Or.inr ⟨rfl, _, List.mem_cons_self _ _, hok,
          fun hne => extractVersion_ne_empty re hre _ hne⟩
      · rw [if_neg hok]
        exact ProbeOutcome_cons _ _ _ hok ih
    · have hst2 : m.Stat p = false := by simpa using hst
      rw [if_pos hst2, List.filter_cons_of_neg hst]
      exact ih

theorem checkPaths_meets (m : Machine) (re : regexp.Regexp) (ps : List String) :
    (checkPaths m re ps).MeetsRequirement = false := by
  induction ps with
  | nil => rfl
  | cons p rest ih =>
    unfold checkPaths
    split_ifs
    · exact ih
    · rfl
    · exact ih

theorem checkNode_outcome (m : Machine) : ProbeOutcome (checkNode m) (checkNode_runs m) := by
  unfold checkNode checkNode_runs
  by_cases hok : (runCmd m "node" ["-v"]).1 = false
  · rw [if_pos hok]
    exact ProbeOutcome_single _ (by simp [hok])
  · rw [if_neg hok]
    exact Or.inr ⟨rfl, _, List.mem_cons_self _ _, by simpa using hok,
      fun hne => extractVersion_ne_empty _ (by simp [versionPatterns]) _ hne⟩

theorem checkRedis_outcome (m : Machine) :
    ProbeOutcome (checkRedis m) (checkRedis_runs m) := by
  unfold checkRedis checkRedis_runs
  by_cases hok : (runCmd m "redis-cli" ["--version"]).1 = false
  · rw [if_pos hok]
    exact ProbeOutcome_single _ (by simp [hok])
  · rw [if_neg hok]
    exact Or.inr ⟨rfl, _, List.mem_cons_self _ _, by simpa using hok,
      fun hne => extractVersion_ne_empty _ (by simp [versionPatterns]) _ hne⟩

theorem checkNpm_outcome (m : Machine) : ProbeOutcome (checkNpm m) (checkNpm_runs m) := by
  unfold checkNpm checkNpm_runs
  by_cases hok : (runCmd m "npm" ["-v"]).1 = false
  · rw [if_pos hok]
    exact ProbeOutcome_single _ (by simp [hok])
  · rw [if_neg hok]
    refine Or.inr ⟨rfl, _, List.mem_cons_self _ _, by simpa using hok, fun hne => ?_⟩
    simp only [runCmd_trimmed]
    exact hne

theorem checkCaddy_outcome (m : Machine) :
    ProbeOutcome (checkCaddy m) (checkCaddy_runs m) := by
  unfold checkCaddy checkCaddy_runs
  by_cases hok : (runCmd m "caddy" ["version"]).1 = true
  · rw [if_pos hok]
    refine Or.inr ⟨rfl, _, List.mem_cons_self _ _, hok, fun hne => ?_⟩
    have hv := extractVersion_ne_empty regexp.caddyPattern (by simp [versionPatterns]) _ hne
    simp only [if_neg hv]
    exact hv
  · rw [if_neg hok]
    exact ProbeOutcome_single _ hok

theorem checkPython_loop_outcome (m : Machine) (names : List String) :
    ProbeOutcome (checkPython_loop m names)
      ((names.filter (fun py => decide (m.GOOS = "windows" ∨ py = "python3"))).map
        (fun py => runCmd m py ["--version"])) := by
  induction names with
  | nil => exact ProbeOutcome_nil
  | cons py rest ih =>
    unfold checkPython_loop
    by_cases hskip : m.GOOS ≠ "windows" ∧ py ≠ "python3"
    · rw [if_pos hskip]
      have hf : decide (m.GOOS = "windows" ∨ py = "python3") = false := by
        simp only [decide_eq_false_iff_not, not_or]
        exact hskip
      rw [List.filter_cons_of_neg (by simp [hf])]
      exact ih
    · rw [if_neg hskip]
      have hf : decide (m.GOOS = "windows" ∨ py = "python3") = true := by
        simp only [decide_eq_true_eq]
        by_contra hcon
        exact hskip (not_or.mp hcon)
      rw [List.filter_cons_of_pos (by simpa using hf), List.map_cons]
      by_cases hok : (runCmd m py ["--version"]).1 = true
      · rw [if_pos hok]
        exact Or.inr ⟨rfl, _, List.mem_cons_self _ _, hok,
          fun hne => extractVersion_ne_empty _ (by simp [versionPatterns]) _ hne⟩
      · rw [if_neg hok]
        exact ProbeOutcome_cons _ _ _ hok ih

theorem checkPostgres_loop_outcome (m : Machine) (cmds : List (List String)) :
    ProbeOutcome (checkPostgres_loop m cmds)
      (cmds.map (fun cmd => runCmd m (cmd.headD "") cmd.tail)) := by
  induction cmds with
  | nil => exact ProbeOutcome_nil
  | cons cmd rest ih =>
    unfold checkPostgres_loop
    rw [List.map_cons]
    by_cases hok : (runCmd m (cmd.headD "") cmd.tail).1 = true
    · rw [if_pos hok]
      exact Or.inr ⟨rfl, _, List.mem_cons_self _ _, hok,
        fun hne => extractVersion_ne_empty _ (by simp [versionPatterns]) _ hne⟩
    · rw [if_neg hok]
      exact ProbeOutcome_cons _ _ _ hok ih

theorem checkBash_loop_outcome (m : Machine) (dirs : List String) :
    ProbeOutcome (checkBash_loop m dirs)
      ((dirs.filter
        (fun dir => decide (dir ≠ "") && m.Stat (m.Join [dir, "Git", "bin", "bash.exe"]))).map
        (fun dir => runCmdEx m (m.Join [dir, "Git", "bin", "bash.exe"]) ["-c", "echo 1"])) := by
  induction dirs with
  | nil => exact ProbeOutcome_nil
  | cons dir rest ih =>
    unfold checkBash_loop
    by_cases hd : dir = ""
    · rw [if_pos hd, List.filter_cons_of_neg (by simp [hd])]
      exact ih
    · rw [if_neg hd]
      by_cases hst : m.Stat (m.Join [dir, "Git", "bin", "bash.exe"]) = true
      · rw [if_pos hst, List.filter_cons_of_pos (by simp [hd, hst]), List.map_cons]
        by_cases hok :
            (runCmdEx m (m.Join [dir, "Git", "bin", "bash.exe"]) ["-c", "echo 1"]).1 = true
        · rw [if_pos hok]
          exact Or.inr ⟨rfl, _, List.mem_cons_self _ _, hok, fun _ => by decide⟩
        · rw [if_neg hok]
          exact ProbeOutcome_cons _ _ _ hok ih
      · rw [if_neg hst, List.filter_cons_of_neg (by simp [hst])]
        exact ih

theorem checkUV_outcome (m : Machine) : ProbeOutcome (checkUV m) (checkUV_runs m) := by
  unfold checkUV checkUV_runs
  by_cases hok : (runCmd m "uv" ["--version"]).1 = true
  · rw [if_pos hok]
    exact Or.inr ⟨rfl, _, List.mem_cons_self _ _, hok,
      fun hne => extractVersion_ne_empty _ (by simp [versionPatterns]) _ hne⟩
  · rw [if_neg hok]
    by_cases hw : m.GOOS = "windows"
    · rw [if_pos hw, if_pos hw]
      exact ProbeOutcome_cons _ _ _ hok (checkPaths_outcome m _ (by simp [versionPatterns]) _)
    · rw [if_neg hw, if_neg hw]
      exact ProbeOutcome_single _ hok

theorem checkInngest_outcome (m : Machine) :
    ProbeOutcome (checkInngest m) (checkInngest_runs m) := by
  unfold checkInngest checkInngest_runs
  by_cases hok : (runCmd m "inngest" ["--version"]).1 = true
  · rw [if_pos hok]
    exact Or.inr ⟨rfl, _, List.mem_cons_self _ _, hok,
      fun hne => extractVersion_ne_empty _ (by simp [versionPatterns]) _ hne⟩
  · rw [if_neg hok]
    exact ProbeOutcome_cons _ _ _ hok (checkPaths_outcome m _ (by simp [versionPatterns]) _)

theorem checkBash_outcome (m : Machine) : ProbeOutcome (checkBash m) (checkBash_runs m) := by
  unfold checkBash checkBash_runs
  by_cases hok : (runCmd m "bash" ["-c", "echo 1"]).1 = true
  · rw [if_pos hok]
    exact Or.inr ⟨rfl, _, List.mem_cons_self _ _, hok, fun _ => by decide⟩
  · rw [if_neg hok]
    by_cases hw : m.GOOS = "windows"
    · rw [if_pos hw, if_pos hw]
      by_cases hwsl : (runCmd m "wsl" ["--version"]).1 = true
      · rw [if_pos hwsl]
        exact Or.inr ⟨rfl, _, List.mem_cons_of_mem _ (List.mem_cons_self _ _), hwsl,
          fun _ => by decide⟩
      · rw [if_neg hwsl]
        exact ProbeOutcome_cons _ _ _ hok
          (ProbeOutcome_cons _ _ _ hwsl (checkBash_loop_outcome m _))
    · rw [if_neg hw, if_neg hw]
      exact ProbeOutcome_single _ hok

theorem probes_outcome (m : Machine)
    (P : (Machine → checkItem) × (Machine → List (Bool × String))) (hP : P ∈ probes) :
    ProbeOutcome (P.1 m) (P.2 m) := by
  simp only [probes, List.mem_cons, List.mem_singleton, List.not_mem_nil, or_false] at hP
  rcases hP with rfl | rfl | rfl | rfl | rfl | rfl | rfl | rfl | rfl
  · exact checkNode_outcome m
  · exact checkPython_loop_outcome m _
  · exact checkUV_outcome m
  · exact checkNpm_outcome m
  · exact checkPostgres_loop_outcome m _
  · exact checkRedis_outcome m
  · exact checkBash_outcome m
  · exact checkInngest_outcome m
  · exact checkCaddy_outcome m

theorem checkBash_loop_fields (m : Machine) (dirs : List String) :
    (checkBash_loop m dirs).MeetsRequirement = false ∧
    ((checkBash_loop m dirs).Installed = true → (checkBash_loop m dirs).Version ≠ "") := by
  induction dirs with
  | nil => exact ⟨rfl, fun h => by cases h⟩
  | cons dir rest ih =>
    unfold checkBash_loop
    split_ifs
    · exact ih
    · exact ⟨rfl, fun _ => by decide⟩
    · exact ih
    · exact ih

theorem checkBash_fields (m : Machine) :
    (checkBash m).MeetsRequirement = false ∧
    ((checkBash m).Installed = true → (checkBash m).Version ≠ "") := by
  unfold checkBash
  split_ifs
  · exact ⟨rfl, fun _ => by decide⟩
  · exact ⟨rfl, fun _ => by decide⟩
  · exact checkBash_loop_fields m _
  · exact ⟨rfl, fun h => by cases h⟩

theorem checkPython_loop_meets (m : Machine) (names : List String)
    (hi : (checkPython_loop m names).Installed = true) :
    (checkPython_loop m names).MeetsRequirement =
      versionGE (checkPython_loop m names).Version "3.12.0" := by
  induction names with
  | nil => cases hi
  | cons py rest ih =>
    unfold checkPython_loop at hi ⊢
    split_ifs at hi ⊢
    · exact ih hi
    · rfl
    · exact ih hi

theorem checkPostgres_loop_meets (m : Machine) (cmds : List (List String))
    (hi : (checkPostgres_loop m cmds).Installed = true) :
    (checkPostgres_loop m cmds).MeetsRequirement =
      versionGE (checkPostgres_loop m cmds).Version "15.0" := by
  induction cmds with
  | nil => cases hi
  | cons cmd rest ih =>
    unfold checkPostgres_loop at hi ⊢
    split_ifs at hi ⊢
    · rfl
    · exact ih hi

/-! ## Claims on the probes -/

/-- C15: for each of the nine probes, on every machine (an arbitrary command oracle and
an arbitrary file-existence predicate): if every run the probe attempts fails, the probe
returns exactly the item with Installed=false, empty Version, empty Path and
MeetsRequirement=false; and the probe returns Installed=true if and only if one of the
runs it attempts exited cleanly. -/
theorem probe_installed_iff (m : Machine)
    (P : (Machine → checkItem) × (Machine → List (Bool × String))) (hP : P ∈ probes) :
    ((∀ r ∈ P.2 m, r.1 = false) →
      P.1 m = { Installed := false, Version := "", Path := "", MeetsRequirement := false }) ∧
    ((P.1 m).Installed = true ↔ ∃ r ∈ P.2 m, r.1 = true) := by
  rcases probes_outcome m P hP with ⟨hitem, hall⟩ | ⟨hi, r, hr, hok, _⟩
  · refine ⟨fun _ => hitem, ?_, ?_⟩
    · intro hi
      rw [hitem] at hi
      cases hi
    · rintro ⟨r, hr, hok⟩
      rw [hall r hr] at hok
      cases hok
  · refine ⟨?_, fun _ => ⟨r, hr, hok⟩, fun _ => hi⟩
    intro hall
    rw [hall r hr] at hok
    cases hok

/-- Witness of C15: the node probe on a machine where every command fails. -/
theorem probe_installed_iff_witness :
    (checkNode, checkNode_runs) ∈ probes ∧ (∀ r ∈ checkNode_runs bareLinux, r.1 = false) ∧
    checkNode bareLinux =
      { Installed := false, Version := "", Path := "", MeetsRequirement := false } :=
  ⟨List.mem_cons_self _ _, by decide,
    (probe_installed_iff bareLinux (checkNode, checkNode_runs) (List.mem_cons_self _ _)).1
      (by decide)⟩

/-- C17, counterexample: on a machine where `node -v` exits cleanly and prints only a
newline, `checkNode` reports Installed=true with an empty Version. -/
theorem checkNode_empty_version :
    silentNode.CombinedOutput false "node" ["-v"] = (true, "\n") ∧
    runCmd silentNode "node" ["-v"] = (true, "") ∧
    checkNode silentNode =
      { Installed := true, Version := "", Path := "", MeetsRequirement := false } := by
  decide

/-- C17, amended: for each of the nine probes and every machine on which the probe
returns Installed=true, the returned Version is non-empty provided every run of the probe
that exits cleanly prints something other than white space (so the Version is empty only
when a command exited cleanly with a blank output); the Version of the bash probe, a
fixed label, is never empty. -/
theorem probe_version_nonempty (m : Machine)
    (P : (Machine → checkItem) × (Machine → List (Bool × String))) (hP : P ∈ probes)
    (hi : (P.1 m).Installed = true) :
    ((∀ r ∈ P.2 m, r.1 = true → r.2 ≠ "") → (P.1 m).Version ≠ "") ∧
    ((P.1 m).Version = "" → ∃ r ∈ P.2 m, r.1 = true ∧ r.2 = "") ∧
    ((checkBash m).Installed = true → (checkBash m).Version ≠ "") := by
  have hout : ∃ r ∈ P.2 m, r.1 = true ∧ (r.2 ≠ "" → (P.1 m).Version ≠ "") := by
    rcases probes_outcome m P hP with ⟨hitem, _⟩ | ⟨_, h⟩
    · rw [hitem] at hi
      cases hi
    · exact h
  obtain ⟨r, hr, hok, hv⟩ := hout
  refine ⟨fun hall => hv (hall r hr hok), ?_, (checkBash_fields m).2⟩
  intro hempty
  refine ⟨r, hr, hok, ?_⟩
  by_contra hne
  exact hv hne hempty

/-- Witness of C17: the node probe on a machine where `node -v` prints `v22.11.0`. -/
theorem probe_version_nonempty_witness :
    (checkNode, checkNode_runs) ∈ probes ∧ (checkNode nodeLinux).Installed = true ∧
    (∀ r ∈ checkNode_runs nodeLinux, r.1 = true → r.2 ≠ "") ∧
    (checkNode nodeLinux).Version ≠ "" :=
  ⟨List.mem_cons_self _ _, by decide, by decide,
    (probe_version_nonempty nodeLinux (checkNode, checkNode_runs) (List.mem_cons_self _ _)
      (by decide)).1 (by decide)⟩

/-- C18: on every machine the probes of uv, bash, caddy and inngest return
MeetsRequirement=false, and a successful probe of node, python, npm, postgresql or redis
returns MeetsRequirement = versionGE(Version, m) for the Version it reports and the
minimum m = 22.0.0, 3.12.0, 10.0.0, 15.0 and 6.0 respectively. -/
theorem meets_requirement (m : Machine) :
    (checkUV m).MeetsRequirement = false ∧ (checkBash m).MeetsRequirement = false ∧
    (checkCaddy m).MeetsRequirement = false ∧ (checkInngest m).MeetsRequirement = false ∧
    ((checkNode m).Installed = true →
      (checkNode m).MeetsRequirement = versionGE (checkNode m).Version "22.0.0") ∧
    ((checkPython m).Installed = true →
      (checkPython m).MeetsRequirement = versionGE (checkPython m).Version "3.12.0") ∧
    ((checkNpm m).Installed = true →
      (checkNpm m).MeetsRequirement = versionGE (checkNpm m).Version "10.0.0") ∧
    ((checkPostgres m).Installed = true →
      (checkPostgres m).MeetsRequirement = versionGE (checkPostgres m).Version "15.0") ∧
    ((checkRedis m).Installed = true →
      (checkRedis m).MeetsRequirement = versionGE (checkRedis m).Version "6.0") := by
  refine ⟨?_, (checkBash_fields m).1, ?_, ?_, ?_, checkPython_loop_meets m _, ?_,
    checkPostgres_loop_meets m _, ?_⟩
  · unfold checkUV
    split_ifs
    · rfl
    · exact checkPaths_meets m _ _
    · rfl
  · unfold checkCaddy
    split_ifs <;> rfl
  · unfold checkInngest
    split_ifs
    · rfl
    · exact checkPaths_meets m _ _
  · intro hi
    unfold checkNode at hi ⊢
    split_ifs at hi ⊢
    rfl
  · intro hi
    unfold checkNpm at hi ⊢
    split_ifs at hi ⊢
    rfl
  · intro hi
    unfold checkRedis at hi ⊢
    split_ifs at hi ⊢
    rfl

/-- Witness of C18: the node probe on a machine with node 22.11.0. -/
theorem meets_requirement_witness :
    (checkNode nodeLinux).Installed = true ∧ (checkNode nodeLinux).Version = "22.11.0" ∧
    (checkNode nodeLinux).MeetsRequirement = versionGE (checkNode nodeLinux).Version "22.0.0" :=
  ⟨by decide, by decide, (meets_requirement nodeLinux).2.2.2.2.1 (by decide)⟩

/-! ## Claims relating the allow-list, the registry and the two tier selections -/

theorem installable_commands (c : String) (hc : installableComponents c = true) :
    ∃ scripts, installScripts.lookup c = some scripts ∧ index scripts "linux" ≠ "" ∧
      index scripts "ubuntu22" ≠ "" := by
  rw [installable_iff] at hc
  rcases hc with rfl | rfl | rfl | rfl | rfl | rfl <;> refine ⟨_, rfl, ?_, ?_⟩ <;> decide

theorem apiInstall_select_ne_empty (h : Host) (scripts : List (String × String))
    (hlinux : index scripts "linux" ≠ "") : (apiInstall_select h scripts).2 ≠ "" := by
  rw [apiInstall_select_eq]
  split_ifs with hc
  · exact hc.2
  · exact hlinux

/-- C21: every component on the auto-installable allow-list is a key of the static
registry, and on every host (whatever distro id and version it reports) the command
`apiInstall` resolves for it is a non-empty string; hence `apiInstall` never answers
"unknown component", and an accepted start launches a non-empty shell command. -/
theorem allowlist_resolves (h : Host) :
    (∀ comp, comp ∈ ["node", "python", "uv", "postgresql", "redis", "caddy"] →
      ∃ scripts, installScripts.lookup comp = some scripts ∧
        (apiInstall_select h scripts).2 ≠ "") ∧
    (∀ (now : Nat) (r : Request) (s : Store),
      (apiInstall installScripts h now r s).1 ≠ .Error "unknown component" 404) ∧
    (∀ (now : Nat) (r : Request) (s : Store),
      (apiInstall installScripts h now r s).1 = installStarted →
      ∃ cmd, cmd ≠ "" ∧
        (apiInstall installScripts h now r s).2.goroutines =
          s.goroutines ++ [(installComp r, cmd)]) := by
  refine ⟨?_, ?_, ?_⟩
  · intro comp hmem
    have hc : installableComponents comp = true := by
      simpa [installableComponents] using hmem
    obtain ⟨scripts, hl, hlinux, _⟩ := installable_commands comp hc
    exact ⟨scripts, hl, apiInstall_select_ne_empty h scripts hlinux⟩
  · intro now r s
    by_cases h1 : r.Method = "POST"
    swap
    · simp [apiInstall, h1]
    by_cases h2 : h.GOOS = "linux"
    swap
    · simp [apiInstall, h1, h2]
    by_cases h3 : installableComponents (installComp r) = true
    swap
    · simp [apiInstall, h1, h2, h3]
    obtain ⟨scripts, hl, _, _⟩ := installable_commands _ h3
    by_cases h4 : s.running (installComp r) = true
    · simp [apiInstall, h1, h2, h3, hl, h4, installBusy]
    · simp [apiInstall, h1, h2, h3, hl, h4, installStarted]
  · intro now r s hacc
    by_cases hok : r.Method = "POST" ∧ h.GOOS = "linux" ∧
        installableComponents (installComp r) = true ∧ s.running (installComp r) = false
    · obtain ⟨hm, hos, hc, hr⟩ := hok
      obtain ⟨scripts, hl, hlinux, _⟩ := installable_commands _ hc
      rw [apiInstall_accept installScripts h now r s scripts hm hos hc hl hr]
      exact ⟨_, apiInstall_select_ne_empty h scripts hlinux, rfl⟩
    · have hrej : r.Method ≠ "POST" ∨ h.GOOS ≠ "linux" ∨
          installableComponents (installComp r) = false ∨
          installScripts.lookup (installComp r) = none ∨
          s.running (installComp r) = true := by
        by_contra hcon
        simp only [not_or, ne_eq, not_not, Bool.not_eq_false, Bool.not_eq_true] at hcon
        exact hok ⟨hcon.1, hcon.2.1, hcon.2.2.1, hcon.2.2.2.2⟩
      exact absurd hacc (apiInstall_reject installScripts h now r s hrej).1

/-- Witness of C21: redis on Ubuntu 22.04. -/
theorem allowlist_resolves_witness :
    "redis" ∈ ["node", "python", "uv", "postgresql", "redis", "caddy"] ∧
    (apiInstall installScripts ubuntu2204 7 postRedis Store.empty).1 = installStarted ∧
    (∃ scripts, installScripts.lookup "redis" = some scripts ∧
      (apiInstall_select ubuntu2204 scripts).2 ≠ "") ∧
    ∃ cmd, cmd ≠ "" ∧
      (apiInstall installScripts ubuntu2204 7 postRedis Store.empty).2.goroutines =
        Store.empty.goroutines ++ [(installComp postRedis, cmd)] :=
  ⟨by decide, by decide, (allowlist_resolves ubuntu2204).1 "redis" (by decide),
    (allowlist_resolves ubuntu2204).2.2 7 postRedis Store.empty (by decide)⟩

/-- C22: on the Linux family, for every registry table, every component present in it
and every distro id and version the host reports, the tier selection of
`apiInstallScript` and the tier selection of `apiInstall` resolve to the same tier and
the same command; so the command the lookup shows for the component is the command an
accepted install of that component launches. -/
theorem shown_is_run (reg : List (String × List (String × String))) (h : Host)
    (comp : String) (scripts : List (String × String)) (hos : h.GOOS = "linux")
    (hl : reg.lookup comp = some scripts) :
    apiInstallScript_select h scripts = apiInstall_select h scripts ∧
    (∀ path, strings.TrimPrefix path "/api/install-script/" = comp →
      apiInstallScript reg h ⟨"GET", path⟩ =
        .writeJSON [("platform", .str (apiInstall_select h scripts).1),
          ("component", .str comp), ("command", .str (apiInstall_select h scripts).2)]) ∧
    (∀ (now : Nat) (r : Request) (s : Store), installComp r = comp →
      (apiInstall reg h now r s).1 = installStarted →
      (apiInstall reg h now r s).2.goroutines =
        s.goroutines ++ [(comp, (apiInstallScript_select h scripts).2)]) := by
  have hw : h.GOOS ≠ "windows" := by
    rw [hos]
    decide
  have hsel : apiInstallScript_select h scripts = apiInstall_select h scripts := by
    rw [apiInstallScript_select_eq, apiInstall_select_eq, if_neg hw]
  refine ⟨hsel, ?_, ?_⟩
  · intro path hpath
    simp [apiInstallScript, hpath, hl, hsel]
  · intro now r s hcomp hacc
    subst hcomp
    by_cases hok : r.Method = "POST" ∧
        installableComponents (installComp r) = true ∧ s.running (installComp r) = false
    · obtain ⟨hm, hc, hr⟩ := hok
      rw [apiInstall_accept reg h now r s scripts hm hos hc hl hr, hsel]
      rfl
    · have hrej : r.Method ≠ "POST" ∨ h.GOOS ≠ "linux" ∨
          installableComponents (installComp r) = false ∨
          reg.lookup (installComp r) = none ∨ s.running (installComp r) = true := by
        by_contra hcon
        simp only [not_or, ne_eq, not_not, Bool.not_eq_false, Bool.not_eq_true] at hcon
        exact hok ⟨hcon.1, hcon.2.2.1, hcon.2.2.2.2⟩
      exact absurd hacc (apiInstall_reject reg h now r s hrej).1

/-- Witness of C22: redis on Ubuntu 22.04, where both paths give the specialised
command. -/
theorem shown_is_run_witness :
    ubuntu2204.GOOS = "linux" ∧
    installScripts.lookup "redis" =
      some [("windows", "winget install Redis.Redis --accept-package-agreements"),
        ("linux", "sudo apt install -y redis-server || sudo dnf install -y redis"),
        ("ubuntu22", "sudo apt update && sudo apt install -y redis-server")] ∧
    apiInstallScript_select ubuntu2204
      [("windows", "winget install Redis.Redis --accept-package-agreements"),
        ("linux", "sudo apt install -y redis-server || sudo dnf install -y redis"),
        ("ubuntu22", "sudo apt update && sudo apt install -y redis-server")] =
      ("ubuntu22", "sudo apt update && sudo apt install -y redis-server") ∧
    apiInstallScript_select ubuntu2204
      [("windows", "winget install Redis.Redis --accept-package-agreements"),
        ("linux", "sudo apt install -y redis-server || sudo dnf install -y redis"),
        ("ubuntu22", "sudo apt update && sudo apt install -y redis-server")] =
    apiInstall_select ubuntu2204
      [("windows", "winget install Redis.Redis --accept-package-agreements"),
        ("linux", "sudo apt install -y redis-server || sudo dnf install -y redis"),
        ("ubuntu22", "sudo apt update && sudo apt install -y redis-server")] :=
  ⟨rfl, by decide, by decide,
    (shown_is_run installScripts ubuntu2204 "redis" _ rfl (by decide)).1⟩

/-- C23: in every job table reachable from the empty table by start requests (accepted
or rejected) and subprocess completions, every existing job entry has exactly one of
Running and Done set, never both and never neither, and an entry with Success=true or a
non-empty Output is Done. -/
theorem job_entry_shape (s : Store) (hs : Reachable s) (c : String) (j : installJob)
    (hj : s.job c = some j) :
    (j.Running = true ∨ j.Done = true) ∧ ¬ (j.Running = true ∧ j.Done = true) ∧
    (j.Success = true ∨ j.Output ≠ "" → j.Done = true) := by
  obtain ⟨hrd, hfresh⟩ := (Inv_of_reachable s hs).2.2 c j hj
  refine ⟨?_, ?_, ?_⟩
  · cases hd : j.Done
    · left
      rw [hrd, hd]
      rfl
    · right
      rfl
  · rintro ⟨hr, hd⟩
    rw [hd] at hrd
    rw [hrd] at hr
    cases hr
  · intro hso
    cases hd : j.Done
    · have hr : j.Running = true := by
        rw [hrd, hd]
        rfl
      obtain ⟨h1, h2⟩ := hfresh hr
      rcases hso with h | h
      · rw [h1] at h
        cases h
      · exact absurd h2 h
    · rfl

/-- Witness of C23: the failed redis job is Done, not Running, and carries its output. -/
theorem job_entry_shape_witness :
    Reachable failedRedis ∧
    failedRedis.job "redis" = some ⟨false, true, false, "E: Unable to locate package", 7⟩ ∧
    ((false = true ∨ true = true) ∧ ¬ (false = true ∧ true = true) ∧
      (false = true ∨ "E: Unable to locate package" ≠ "" → true = true)) :=
  ⟨reachable_failedRedis, by decide,
    job_entry_shape failedRedis reachable_failedRedis "redis"
      ⟨false, true, false, "E: Unable to locate package", 7⟩ (by decide)⟩

end RiverEdge
